import Mathlib

/-!
# vmmetrics: identifier interner, identity hashing and Set registry

A shallow embedding of `unique_ident.go`, `set_counter.go` and `set_gauge.go`.

* Go strings are Lean `String`s; the byte stream fed to a hasher is the list of
  their characters (`String.data`), so writing two strings one after the other
  is list append.
* Pointers are natural-number addresses into an explicit heap.
* A panic is an explicit outcome that carries the state reached when it was
  raised (a Go panic can be recovered, as the tests do with `assert.Panics`).
* Operations run one at a time: the model is sequential.
-/

namespace Vmmetrics

/-! ## Collaborators that are not part of the translated sources -/

/-- The collaborators the translated functions call but that are declared
elsewhere: the standard library's seeded hash (`hash/maphash`), the seed chosen
at process start (`globalSeed`), the identifier grammar (`validateIdent`) and
the check applied to a tag value. They are parameters of every definition
below. `maphash seed bytes` is reduced modulo `2^64` wherever it is used. -/
structure Deps where
  maphash : Nat → List Char → Nat
  globalSeed : Nat
  validateIdent : String → Bool
  validateValue : String → Bool

/-- The ways an operation can panic. -/
inductive Panic where
  | emptyIdentifier
  | invalidIdentifier (value : String)
  | malformedTagList
  | duplicateRegistration
  | typeAssertion
deriving DecidableEq, Repr

/-- The result of an operation on a state `σ`: a returned value or a panic,
each with the state the operation left behind. -/
inductive Outcome (σ α : Type) where
  | returned (val : α) (st : σ)
  | panicked (err : Panic) (st : σ)
deriving DecidableEq, Repr

/-- The state an outcome leaves behind. -/
def Outcome.state {σ α : Type} : Outcome σ α → σ
  | .returned _ st => st
  | .panicked _ st => st

/-- `maphash.String(seed, s)`: a 64-bit value. -/
def maphashString (d : Deps) (seed : Nat) (s : String) : Nat :=
  d.maphash seed s.data % 2 ^ 64

/-! ## unique_ident.go -/

/-- An `Ident` holds a strong pointer to an interned string. -/
structure Ident where
  ptr : Nat
deriving DecidableEq, Repr

/-- The memory `makeIdentHandle` works on: the heap of interned strings
(`none` marks a string the collector has reclaimed) and `identCache`, the
`sync.Map` from a content hash to a weak pointer (an address that does not keep
its target alive). -/
structure IdentMem where
  strings : List (Option String)
  identCache : List (Nat × Nat)
deriving DecidableEq, Repr

/-- `weak.Pointer.Value`: the strong pointer, or `none` (nil) once the target
has been reclaimed. -/
def weakValue (m : IdentMem) (wp : Nat) : Option Nat :=
  match m.strings[wp]? with
  | some (some _) => some wp
  | _ => none

/-- `sync.Map.Load`. -/
def cacheLoad (c : List (Nat × Nat)) (key : Nat) : Option Nat :=
  c.lookup key

/-- `sync.Map.LoadOrStore`: the existing value when the key is present,
otherwise the given value is stored and returned. -/
def cacheLoadOrStore (c : List (Nat × Nat)) (key wp : Nat) : List (Nat × Nat) × Nat :=
  match c.lookup key with
  | some w => (c, w)
  | none => ((key, wp) :: c, wp)

/-- `sync.Map.CompareAndDelete`: the entry is deleted when its value is `old`. -/
def cacheCompareAndDelete (c : List (Nat × Nat)) (key old : Nat) : List (Nat × Nat) :=
  if c.lookup key = some old then c.filter (fun e => e.1 != key) else c

/-- Lines 38-50 of `makeIdentHandle`: load the entry and, when there is none,
validate and allocate `toInsert` (once) and `LoadOrStore` it. The result is
the new `toInsert`, the memory and the weak pointer `wp`. -/
def loadOrInsert (d : Deps) (value : String) (key : Nat) (toInsert : Option Nat)
    (m : IdentMem) : Except Panic (Option Nat × IdentMem × Nat) :=
  match cacheLoad m.identCache key with
  | some wp => .ok (toInsert, m, wp)
  | none =>
    match toInsert with
    | none =>
      if !d.validateIdent value then .error (.invalidIdentifier value)
      else
        let p := m.strings.length
        let r := cacheLoadOrStore m.identCache key p
        .ok (some p, { strings := m.strings ++ [some value], identCache := r.1 }, r.2)
    | some p =>
      let r := cacheLoadOrStore m.identCache key p
      .ok (some p, { m with identCache := r.1 }, r.2)

/-- The `for` loop of `makeIdentHandle`, one unit of fuel per pass through the
body; `none` when the fuel runs out. -/
def makeIdentHandleLoop (d : Deps) (value : String) (key : Nat) :
    Nat → Option Nat → IdentMem → Option (Outcome IdentMem Ident)
  | 0, _, _ => none
  | fuel + 1, toInsert, m =>
    match loadOrInsert d value key toInsert m with
    | .error e => some (.panicked e m)
    | .ok (ti, m1, wp) =>
      match weakValue m1 wp with
      | some ptr => some (.returned ⟨ptr⟩ m1)
      | none =>
        makeIdentHandleLoop d value key fuel ti
          { m1 with identCache := cacheCompareAndDelete m1.identCache key wp }

/-- `makeIdentHandle(value)`. -/
def makeIdentHandle (d : Deps) (fuel : Nat) (m : IdentMem) (value : String) :
    Option (Outcome IdentMem Ident) :=
  if value.length = 0 then some (.panicked .emptyIdentifier m)
  else makeIdentHandleLoop d value (maphashString d d.globalSeed value) fuel none m

/-- What can happen to the interner between two calls: another call of
`makeIdentHandle`, or the collector reclaiming the string at an address. -/
inductive Event where
  | call (fuel : Nat) (value : String)
  | reclaim (addr : Nat)
deriving DecidableEq, Repr

/-- The memory after an event. -/
def applyEvent (d : Deps) (m : IdentMem) : Event → IdentMem
  | .call fuel value =>
    match makeIdentHandle d fuel m value with
    | some o => o.state
    | none => m
  | .reclaim addr => { m with strings := m.strings.set addr none }

/-- The memory after a sequence of events. -/
def applyEvents (d : Deps) (m : IdentMem) (es : List Event) : IdentMem :=
  es.foldl (applyEvent d) m

/-- The cache holds, under the hash of `value`, a weak pointer that still
resolves. -/
def liveHit (d : Deps) (m : IdentMem) (value : String) : Bool :=
  match cacheLoad m.identCache (maphashString d d.globalSeed value) with
  | some wp => (weakValue m wp).isSome
  | none => false

/-- Modelled from the spec: the identifier grammar, which `validator.go` (not
among the translated sources) implements: "alphanumeric/underscore, not purely
numeric first character", the namespace separator `:` being allowed as well.
Used only to instantiate `Deps.validateIdent` at concrete inputs. -/
def validateIdentSpec (s : String) : Bool :=
  match s.data with
  | [] => false
  | c :: cs =>
    (c.isAlpha || c == '_' || c == ':') &&
      cs.all (fun x => x.isAlphanum || x == '_' || x == ':')

/-- A sample 64-bit hash for concrete runs: the polynomial hash of the bytes,
started at the seed. -/
def polyHash (seed : Nat) (bytes : List Char) : Nat :=
  bytes.foldl (fun acc c => (acc * 31 + c.toNat) % 2 ^ 64) seed

/-- Concrete collaborators for runs at explicit inputs: the sample hash with
seed 7, the grammar of the spec for identifiers and "non-empty" for values. -/
def sampleDeps : Deps where
  maphash := polyHash
  globalSeed := 7
  validateIdent := validateIdentSpec
  validateValue := fun s => s.length != 0

/-- The empty interner. -/
def emptyMem : IdentMem := { strings := [], identCache := [] }

/-! ## Identity hashing -/

/-- The standard library's `maphash.Hash`: its seed and the bytes written to it
so far. Its value depends on the seed and on the sequence of bytes written, not
on how the writes were split. -/
structure Hash where
  seed : Nat
  written : List Char
deriving DecidableEq, Repr

/-- `(*maphash.Hash).WriteString`. -/
def Hash.WriteString (h : Hash) (s : String) : Hash :=
  { h with written := h.written ++ s.data }

/-- `(*maphash.Hash).Sum64`. -/
def Hash.Sum64 (d : Deps) (h : Hash) : Nat :=
  d.maphash h.seed h.written % 2 ^ 64

/-- A fresh hasher seeded with `globalSeed`. -/
def newHash (d : Deps) : Hash := { seed := d.globalSeed, written := [] }

/-- The labels of a flat tag list `[L0, V0, L1, V1, ...]`: the strings at the
even positions. -/
def flatLabels : List String → List String
  | [] => []
  | [l] => [l]
  | l :: _ :: rest => l :: flatLabels rest

/-- The values of a flat tag list `[L0, V0, L1, V1, ...]`: the strings at the
odd positions. -/
def flatValues : List String → List String
  | [] => []
  | [_] => []
  | _ :: v :: rest => v :: flatValues rest

/-- Modelled from the spec: `getHashStrings` (in `hash.go`, not among the
translated sources), the non-split `Hash(family, tags)` over the flat tag list:
"the hash folds family then each tag's label then each tag's value, in call
order", in the order that makes `Finish` "bit-identical to calling the
non-split `Hash` with the equivalent full tag set": the family, then the label
of every tag, then the value of every tag. -/
def getHashStrings (d : Deps) (family : String) (tags : List String) : Nat :=
  ((flatValues tags).foldl Hash.WriteString
    ((flatLabels tags).foldl Hash.WriteString ((newHash d).WriteString family))).Sum64 d

/-- Modelled from the spec: `hashStart` (in `hash.go`, not among the translated
sources), `PartialHash(family, labels)`: "computed once at Vec construction,
folding family and the label identifiers only". -/
def hashStart (d : Deps) (family : String) (labels : List String) : Hash :=
  labels.foldl Hash.WriteString ((newHash d).WriteString family)

/-- Modelled from the spec: `hashFinish` (in `hash.go`, not among the translated
sources), `Finish(state, values)`: "folds the values into a copy of the
precomputed state". -/
def hashFinish (d : Deps) (h : Hash) (values : List String) : Nat :=
  (values.foldl Hash.WriteString h).Sum64 d

/-- The flat tag list that pairs labels and values positionally:
`[L0, V0, L1, V1, ...]`. -/
def pairFlat : List String → List String → List String
  | l :: ls, v :: vs => l :: v :: pairFlat ls vs
  | _, _ => []

/-! ## The Set registry -/

/-- A tag: a label and a value, both kept by content. -/
structure Tag where
  label : String
  value : String
deriving DecidableEq, Repr

/-- The instrument of an entry: a pointer to a `Counter` or to a `Gauge`
(the dynamic type of the `Metric` interface value). -/
inductive Metric where
  | counter (ref : Nat)
  | gauge (ref : Nat)
deriving DecidableEq, Repr

/-- A registered entry. -/
structure namedMetric where
  id : Nat
  family : String
  tags : List Tag
  metric : Metric
deriving DecidableEq, Repr

/-- A Set: the map `metrics` from identity hash to entry, as an association
list read with `List.lookup`. -/
structure Set where
  metrics : List (Nat × namedMetric)
deriving DecidableEq, Repr

/-- `NewSet()`. -/
def NewSet : Set := { metrics := [] }

/-- The instrument objects of the process: the value of every allocated
`Counter` (a 64-bit integer) and, for every allocated `Gauge`, whether it was
given a callback (its float value is not modelled). -/
structure Heap where
  counters : List Nat
  gauges : List Bool
deriving DecidableEq, Repr

/-- The state an operation of a Set works on: the heap and the Set. -/
structure World where
  heap : Heap
  set : Set
deriving DecidableEq, Repr

/-- `&Counter{}`: a new counter with value 0. -/
def Heap.newCounter (hp : Heap) : Heap × Nat :=
  ({ hp with counters := hp.counters ++ [0] }, hp.counters.length)

/-- `&Gauge{fn: f}`: a new gauge. -/
def Heap.newGauge (hp : Heap) (hasFn : Bool) : Heap × Nat :=
  ({ hp with gauges := hp.gauges ++ [hasFn] }, hp.gauges.length)

/-- Modelled from the spec: `MustIdent` (in `ident.go`, not among the
translated sources): "`Intern(content) -> Ident`, fails with an
`InvalidIdentifier` condition if `content` is empty or fails the identifier
grammar". In the registry an Ident is kept by its content. -/
def MustIdent (d : Deps) (value : String) : Except Panic String :=
  if value.length = 0 then .error .emptyIdentifier
  else if !d.validateIdent value then .error (.invalidIdentifier value)
  else .ok value

/-- Modelled from the spec: the check of a tag value (not among the translated
sources). The spec calls the value an Ident; the tests register the value
`"1"`, which the identifier grammar refuses, so the check is the separate
parameter `Deps.validateValue`. -/
def MustValue (d : Deps) (value : String) : Except Panic String :=
  if !d.validateValue value then .error (.invalidIdentifier value) else .ok value

/-- The tags of a flat list of alternating labels and values. -/
def pairTags (d : Deps) : List String → Except Panic (List Tag)
  | [] => .ok []
  | [_] => .error .malformedTagList
  | l :: v :: rest =>
    match MustIdent d l with
    | .error e => .error e
    | .ok l1 =>
      match MustValue d v with
      | .error e => .error e
      | .ok v1 =>
        match pairTags d rest with
        | .error e => .error e
        | .ok ts => .ok ({ label := l1, value := v1 } :: ts)

/-- Modelled from the spec: `MustTags` (not among the translated sources):
"the tags supplied by a caller are always given as a flat sequence of
alternating label/value strings and must have even length, else construction
fails". -/
def MustTags (d : Deps) (tags : List String) : Except Panic (List Tag) :=
  if tags.length % 2 ≠ 0 then .error .malformedTagList else pairTags d tags

/-- Modelled from the spec: the identity hash of validated tags, as
`mustRegisterMetric` computes it (`hash.go`, not among the translated
sources), the same `Hash(family, tags)` as `getHashStrings`: the family, then
the label of every tag, then the value of every tag. -/
def getHashTags (d : Deps) (family : String) (tags : List Tag) : Nat :=
  ((tags.map Tag.value).foldl Hash.WriteString
    ((tags.map Tag.label).foldl Hash.WriteString ((newHash d).WriteString family))).Sum64 d

/-- Modelled from the spec: `Set.mustRegisterMetric` (in `set.go`, not among
the translated sources): "computes the identity hash, acquires the registry
lock, and fails with a `DuplicateRegistration` condition if an entry already
exists for that hash; otherwise inserts a fresh entry". -/
def Set.mustRegisterMetric (d : Deps) (s : Set) (m : Metric) (family : String)
    (tags : List Tag) : Except Panic Set :=
  let hash := getHashTags d family tags
  match s.metrics.lookup hash with
  | some _ => .error .duplicateRegistration
  | none =>
    .ok { metrics := (hash, { id := hash, family := family, tags := tags, metric := m })
            :: s.metrics }

/-- Modelled from the spec: `Set.getOrAddMetricFromStrings` (in `set.go`, not
among the translated sources): "performs identifier validation and allocation
outside the lock, then re-acquires the lock and re-checks before inserting;
if another thread inserted the same identity in the interim, the
freshly-allocated instrument is discarded and the existing one is returned". -/
def Set.getOrAddMetricFromStrings (d : Deps) (s : Set) (m : Metric) (hash : Nat)
    (family : String) (tags : List String) : Except Panic (namedMetric × Set) :=
  match MustIdent d family with
  | .error e => .error e
  | .ok f =>
    match MustTags d tags with
    | .error e => .error e
    | .ok ts =>
      match s.metrics.lookup hash with
      | some nm => .ok (nm, s)
      | none =>
        let nm : namedMetric := { id := hash, family := f, tags := ts, metric := m }
        .ok (nm, { metrics := (hash, nm) :: s.metrics })

/-- The tag set of a Vec entry: each partial tag's label with the value at the
same position. Lists of different lengths are refused (the spec pairs them
"positionally" and says nothing else). -/
def fillTags (d : Deps) : List Tag → List String → Except Panic (List Tag)
  | [], [] => .ok []
  | t :: ts, v :: vs =>
    match MustValue d v with
    | .error e => .error e
    | .ok v1 =>
      match fillTags d ts vs with
      | .error e => .error e
      | .ok r => .ok ({ label := t.label, value := v1 } :: r)
  | _, _ => .error .malformedTagList

/-- Modelled from the spec: `Set.getOrRegisterMetricFromVec` (in `set.go`, not
among the translated sources): the "identical optimistic-read/double-check
protocol", which "supplies the Vec's family/label identifiers paired
positionally with the call-supplied values to build the tag set for a newly
inserted entry". -/
def Set.getOrRegisterMetricFromVec (d : Deps) (s : Set) (m : Metric) (hash : Nat)
    (family : String) (partialTags : List Tag) (values : List String) :
    Except Panic (namedMetric × Set) :=
  match fillTags d partialTags values with
  | .error e => .error e
  | .ok ts =>
    match s.metrics.lookup hash with
    | some nm => .ok (nm, s)
    | none =>
      let nm : namedMetric := { id := hash, family := family, tags := ts, metric := m }
      .ok (nm, { metrics := (hash, nm) :: s.metrics })

/-! ### set_counter.go -/

/-- `CounterOpt`. -/
structure CounterOpt where
  Family : String
  Tags : List Tag
deriving DecidableEq, Repr

/-- The type assertion `nm.metric.(*Counter)`. -/
def assertCounter (nm : namedMetric) (w : World) : Outcome World Nat :=
  match nm.metric with
  | .counter c => .returned c w
  | .gauge _ => .panicked .typeAssertion w

/-- `Set.NewCounterOpt`. -/
def NewCounterOpt (d : Deps) (w : World) (opt : CounterOpt) : Outcome World Nat :=
  let a := w.heap.newCounter
  match w.set.mustRegisterMetric d (.counter a.2) opt.Family opt.Tags with
  | .error e => .panicked e { heap := a.1, set := w.set }
  | .ok s => .returned a.2 { heap := a.1, set := s }

/-- `Set.NewCounter`. -/
def NewCounter (d : Deps) (w : World) (family : String) (tags : List String) :
    Outcome World Nat :=
  match MustIdent d family with
  | .error e => .panicked e w
  | .ok f =>
    match MustTags d tags with
    | .error e => .panicked e w
    | .ok ts => NewCounterOpt d w { Family := f, Tags := ts }

/-- `Set.GetOrCreateCounter`. -/
def GetOrCreateCounter (d : Deps) (w : World) (family : String) (tags : List String) :
    Outcome World Nat :=
  let hash := getHashStrings d family tags
  match w.set.metrics.lookup hash with
  | some nm => assertCounter nm w
  | none =>
    let a := w.heap.newCounter
    match w.set.getOrAddMetricFromStrings d (.counter a.2) hash family tags with
    | .error e => .panicked e { heap := a.1, set := w.set }
    | .ok r => assertCounter r.1 { heap := a.1, set := r.2 }

/-- `CounterVecOpt`. -/
structure CounterVecOpt where
  Family : String
  Labels : List String
deriving DecidableEq, Repr

/-- `CounterVec` (its Set is the one of the `World` it is used with). -/
structure CounterVec where
  family : String
  partialTags : List Tag
  partialHash : Hash
deriving DecidableEq, Repr

/-- The loop of `NewCounterVec`: a partial tag per label, with a validated
label and no value. -/
def labelsToPartialTags (d : Deps) : List String → Except Panic (List Tag)
  | [] => .ok []
  | label :: rest =>
    match MustIdent d label with
    | .error e => .error e
    | .ok l =>
      match labelsToPartialTags d rest with
      | .error e => .error e
      | .ok ts => .ok ({ label := l, value := "" } :: ts)

/-- `Set.NewCounterVec`. -/
def NewCounterVec (d : Deps) (opt : CounterVecOpt) : Except Panic CounterVec :=
  match MustIdent d opt.Family with
  | .error e => .error e
  | .ok family =>
    match labelsToPartialTags d opt.Labels with
    | .error e => .error e
    | .ok partialTags =>
      .ok { family := family, partialTags := partialTags,
            partialHash := hashStart d family opt.Labels }

/-- `CounterVec.WithLabelValues`. -/
def CounterVec.WithLabelValues (d : Deps) (c : CounterVec) (w : World)
    (values : List String) : Outcome World Nat :=
  let hash := hashFinish d c.partialHash values
  match w.set.metrics.lookup hash with
  | some nm => assertCounter nm w
  | none =>
    let a := w.heap.newCounter
    match w.set.getOrRegisterMetricFromVec d (.counter a.2) hash c.family
        c.partialTags values with
    | .error e => .panicked e { heap := a.1, set := w.set }
    | .ok r => assertCounter r.1 { heap := a.1, set := r.2 }

/-! ### set_gauge.go -/

/-- `GauageOpt`; `Func` records whether a callback was given. -/
structure GauageOpt where
  Family : String
  Tags : List Tag
  Func : Bool
deriving DecidableEq, Repr

/-- The type assertion `nm.metric.(*Gauge)`. -/
def assertGauge (nm : namedMetric) (w : World) : Outcome World Nat :=
  match nm.metric with
  | .gauge g => .returned g w
  | .counter _ => .panicked .typeAssertion w

/-- `Set.NewGaugeOpt`. -/
def NewGaugeOpt (d : Deps) (w : World) (opt : GauageOpt) : Outcome World Nat :=
  let a := w.heap.newGauge opt.Func
  match w.set.mustRegisterMetric d (.gauge a.2) opt.Family opt.Tags with
  | .error e => .panicked e { heap := a.1, set := w.set }
  | .ok s => .returned a.2 { heap := a.1, set := s }

/-- `Set.NewGauge`. -/
def NewGauge (d : Deps) (w : World) (family : String) (fn : Bool) (tags : List String) :
    Outcome World Nat :=
  match MustIdent d family with
  | .error e => .panicked e w
  | .ok f =>
    match MustTags d tags with
    | .error e => .panicked e w
    | .ok ts => NewGaugeOpt d w { Family := f, Tags := ts, Func := fn }

/-- `Set.GetOrCreateGauge`. -/
def GetOrCreateGauge (d : Deps) (w : World) (family : String) (tags : List String) :
    Outcome World Nat :=
  let hash := getHashStrings d family tags
  match w.set.metrics.lookup hash with
  | some nm => assertGauge nm w
  | none =>
    let a := w.heap.newGauge false
    match w.set.getOrAddMetricFromStrings d (.gauge a.2) hash family tags with
    | .error e => .panicked e { heap := a.1, set := w.set }
    | .ok r => assertGauge r.1 { heap := a.1, set := r.2 }

/-! ### The Counter body -/

/-- Modelled from the spec: the operations of a `Counter` (`counter.go`, not
among the translated sources) other than `Get`. -/
inductive CounterOp where
  | inc
  | dec
  | add (delta : Int)
  | set (value : Nat)
deriving DecidableEq, Repr

/-- Modelled from the spec: the effect of an operation on the value of a
`Counter` (`counter.go`, not among the translated sources), "a 64-bit integer
value accessed only through Inc/Dec/Add/Set/Get": the arithmetic wraps at
`2^64`. -/
def CounterOp.apply : CounterOp → Nat → Nat
  | .inc, n => (n + 1) % 2 ^ 64
  | .dec, n => (n + (2 ^ 64 - 1)) % 2 ^ 64
  | .add delta, n => (((n : Int) + delta) % 2 ^ 64).toNat
  | .set value, _ => value % 2 ^ 64

/-- `Counter.Get` on the counter at address `c`. -/
def Counter.Get (hp : Heap) (c : Nat) : Nat :=
  hp.counters.getD c 0

/-- An operation applied to the counter at address `c`. -/
def Counter.apply (hp : Heap) (c : Nat) (op : CounterOp) : Heap :=
  { hp with counters := hp.counters.set c (op.apply (Counter.Get hp c)) }

/-- A sequence of operations applied to the counter at address `c`. -/
def Counter.applyAll (hp : Heap) (c : Nat) (ops : List CounterOp) : Heap :=
  ops.foldl (fun h op => Counter.apply h c op) hp

/-- What `Get` reads after each operation of a sequence. -/
def Counter.readings (hp : Heap) (c : Nat) : List CounterOp → List Nat
  | [] => []
  | op :: ops =>
    Counter.Get (Counter.apply hp c op) c :: Counter.readings (Counter.apply hp c op) c ops

/-! ### Sequences of calls on one Set -/

/-- A call on a Set. `WithLabelValues` stands for building the Vec with
`NewCounterVec` and completing it with the values. -/
inductive Call where
  | newCounter (family : String) (tags : List String)
  | getOrCreateCounter (family : String) (tags : List String)
  | withLabelValues (opt : CounterVecOpt) (values : List String)
  | newGauge (family : String) (fn : Bool) (tags : List String)
  | getOrCreateGauge (family : String) (tags : List String)
  | counterOp (c : Nat) (op : CounterOp)
deriving DecidableEq, Repr

/-- The state a call leaves behind, whether it returned or panicked. -/
def Call.run (d : Deps) (w : World) : Call → World
  | .newCounter family tags => (NewCounter d w family tags).state
  | .getOrCreateCounter family tags => (GetOrCreateCounter d w family tags).state
  | .withLabelValues opt values =>
    match NewCounterVec d opt with
    | .error _ => w
    | .ok v => (v.WithLabelValues d w values).state
  | .newGauge family fn tags => (NewGauge d w family fn tags).state
  | .getOrCreateGauge family tags => (GetOrCreateGauge d w family tags).state
  | .counterOp c op => { w with heap := Counter.apply w.heap c op }

/-- The state after a sequence of calls. -/
def runCalls (d : Deps) (w : World) (cs : List Call) : World :=
  cs.foldl (Call.run d) w

/-- A call of the Counter interface (no Gauge involved). -/
def Call.isCounterCall : Call → Bool
  | .newCounter _ _ => true
  | .getOrCreateCounter _ _ => true
  | .withLabelValues _ _ => true
  | .counterOp _ _ => true
  | _ => false

/-- A family or label the interner accepts. -/
def validIdent (d : Deps) (s : String) : Bool :=
  s.length != 0 && d.validateIdent s

/-- A flat tag list of even length whose labels and values are accepted. -/
def validFlatTags (d : Deps) : List String → Bool
  | [] => true
  | [_] => false
  | l :: v :: rest => validIdent d l && d.validateValue v && validFlatTags d rest

/-- The entries of a Set that carry the identity `(family, tags)`. -/
def Set.entriesFor (s : Set) (family : String) (tags : List Tag) :
    List (Nat × namedMetric) :=
  s.metrics.filter (fun e => e.2.family == family && e.2.tags == tags)

/-- The fold the claim describes, over the integers: `Inc = +1`, `Dec = -1`,
`Add(d) = +d`, `Set(v) =` replace by `v`. -/
def idealStep (n : Int) : CounterOp → Int
  | .inc => n + 1
  | .dec => n - 1
  | .add delta => n + delta
  | .set value => value

/-- The ideal value after a sequence of operations, starting at 0. -/
def idealFold (ops : List CounterOp) : Int :=
  ops.foldl idealStep 0

/-- The empty heap. -/
def emptyHeap : Heap := { counters := [], gauges := [] }

/-- A fresh Set on a given heap. -/
def freshWorld (hp : Heap) : World := { heap := hp, set := NewSet }

/-- What `Get` reads after each operation of a sequence, from the value
before the sequence. -/
def valueReadings (n : Nat) : List CounterOp → List Nat
  | [] => []
  | op :: ops => op.apply n :: valueReadings (op.apply n) ops

/-- The state after `GetOrCreateGauge("foo")` on a fresh Set and an empty
heap. -/
def worldWithGaugeFoo : World :=
  (GetOrCreateGauge sampleDeps (freshWorld emptyHeap) "foo" []).state

/-- The state after `NewCounter("foo", "bar", "baz")` on a fresh Set and an
empty heap. -/
def worldWithCounterFoo : World :=
  (NewCounter sampleDeps (freshWorld emptyHeap) "foo" ["bar", "baz"]).state

/-- The identifier made of `n + 1` letters `a`. -/
def aString (n : Nat) : String := String.mk (List.replicate (n + 1) 'a')

/-- The state after `GetOrCreateCounter("fooa1")` on a fresh Set and an empty
heap. -/
def worldWithFooa1 : World :=
  (GetOrCreateCounter sampleDeps (freshWorld emptyHeap) "fooa1" []).state

/-- The state after `GetOrCreateCounter("foo")` on a fresh Set and an empty
heap. -/
def worldWithFoo : World :=
  (GetOrCreateCounter sampleDeps (freshWorld emptyHeap) "foo" []).state

/-- The state after `GetOrCreateCounter("foo", "a", "1")` on `worldWithFoo`. -/
def worldWithFooA1 : World :=
  (GetOrCreateCounter sampleDeps worldWithFoo "foo" ["a", "1"]).state

/-- The calls of the Vec-then-flat run: the Vec over family `foo` with labels
`a` and `b` completed with the values `1` and `2`, then `GetOrCreateCounter`
with the same identity as a flat tag list. -/
def vecThenFlat : List Call :=
  [.withLabelValues { Family := "foo", Labels := ["a", "b"] } ["1", "2"],
   .getOrCreateCounter "foo" ["a", "1", "b", "2"]]

/-- An instrument pointer that points into the heap. -/
def refInHeap (hp : Heap) : Metric → Prop
  | .counter c => c < hp.counters.length
  | .gauge g => g < hp.gauges.length

/-- The invariant of a Set and its heap: no hash is the key of two entries,
every entry's instrument is allocated, and two entries under different hashes
have different instruments. -/
def WellFormed (w : World) : Prop :=
  (w.set.metrics.map Prod.fst).Nodup ∧
  (∀ h nm, w.set.metrics.lookup h = some nm → refInHeap w.heap nm.metric) ∧
  (∀ h1 h2 nm1 nm2, w.set.metrics.lookup h1 = some nm1 →
    w.set.metrics.lookup h2 = some nm2 → nm1.metric = nm2.metric → h1 = h2)

/-- What one call can do to the state: nothing, allocate an instrument that is
then dropped, insert an entry with a freshly allocated instrument under a hash
that had none, or change the value of a counter. `P` is a property of the
inserted key and entry. -/
inductive Effect (P : Nat → namedMetric → Prop) (w : World) : World → Prop where
  | same : Effect P w w
  | allocCounter :
      Effect P w { heap := { w.heap with counters := w.heap.counters ++ [0] }, set := w.set }
  | allocGauge (b : Bool) :
      Effect P w { heap := { w.heap with gauges := w.heap.gauges ++ [b] }, set := w.set }
  | addCounter (h : Nat) (nm : namedMetric) (hnone : w.set.metrics.lookup h = none)
      (hm : nm.metric = .counter w.heap.counters.length) (hP : P h nm) :
      Effect P w { heap := { w.heap with counters := w.heap.counters ++ [0] },
                   set := { metrics := (h, nm) :: w.set.metrics } }
  | addGauge (b : Bool) (h : Nat) (nm : namedMetric)
      (hnone : w.set.metrics.lookup h = none)
      (hm : nm.metric = .gauge w.heap.gauges.length) (hP : P h nm) :
      Effect P w { heap := { w.heap with gauges := w.heap.gauges ++ [b] },
                   set := { metrics := (h, nm) :: w.set.metrics } }
  | mutate (c v : Nat) :
      Effect P w { heap := { w.heap with counters := w.heap.counters.set c v }, set := w.set }

/-- The key of an entry is the identity hash of its family and tags. -/
def keyIsIdentityHash (d : Deps) (h : Nat) (nm : namedMetric) : Prop :=
  h = getHashTags d nm.family nm.tags

/-- The invariant of the interner: every weak pointer the cache holds is an
allocated address, and a string that is still alive under a key is not empty,
passed `validateIdent`, has that key as its hash and is one of the contents
`A` the interner was called with. -/
def Interned (d : Deps) (A : String → Prop) (m : IdentMem) : Prop :=
  ∀ k p, cacheLoad m.identCache k = some p →
    p < m.strings.length ∧
    ∀ s, m.strings[p]? = some (some s) →
      s.length ≠ 0 ∧ d.validateIdent s = true ∧ maphashString d d.globalSeed s = k ∧ A s

/-- The pending `toInsert` of the loop, when there is one, is an allocated
address, and the string at it, while alive, is not empty, passed
`validateIdent`, hashes to `key` and is one of the contents `A`. -/
def PendingOK (d : Deps) (A : String → Prop) (key : Nat) (toInsert : Option Nat)
    (m : IdentMem) : Prop :=
  ∀ p, toInsert = some p →
    p < m.strings.length ∧
    ∀ s, m.strings[p]? = some (some s) →
      s.length ≠ 0 ∧ d.validateIdent s = true ∧ maphashString d d.globalSeed s = key ∧ A s

/-- The content `s` was passed to a call of `makeIdentHandle` among the
events. -/
def calledWith (es : List Event) (s : String) : Prop :=
  ∃ fuel, Event.call fuel s ∈ es

/-- The events that produce `memAfterAL` and more: `"aL"` and `"foo"` are
interned, and the string of `"foo"` is reclaimed. -/
def sampleEvents : List Event :=
  [.call 2 "aL", .call 2 "foo", .reclaim 1]

/-- The interner after `makeIdentHandle("aL")` on the empty interner, under
`sampleDeps`: one live string, cached under its hash. -/
def memAfterAL : IdentMem := { strings := [some "aL"], identCache := [(9810, 0)] }

/-- An interner whose only entry has decayed: the string at address 0 was
reclaimed, and the cache still maps the hash of `"aL"` to it. -/
def memDecayedAL : IdentMem := { strings := [none], identCache := [(9810, 0)] }

/-! ## Lemmas on association lists -/

theorem lookup_filter_self {β : Type} (key : Nat) (c : List (Nat × β)) :
    (c.filter (fun e => e.1 != key)).lookup key = none := by
  induction c with
  | nil => rfl
  | cons e c ih =>
    obtain ⟨k, v⟩ := e
    by_cases h : k = key
    · subst h
      simpa [List.filter_cons] using ih
    · have h1 : (k != key) = true := by simpa using h
      have h2 : (key == k) = false := by
        simpa using fun h3 : key = k => h h3.symm
      simp only [List.filter_cons, h1, if_true, List.lookup_cons, h2]
      exact ih

theorem lookup_filter_ne {β : Type} (key k1 : Nat) (hk : key ≠ k1) (c : List (Nat × β)) :
    (c.filter (fun e => e.1 != k1)).lookup key = c.lookup key := by
  induction c with
  | nil => rfl
  | cons e c ih =>
    obtain ⟨k, v⟩ := e
    by_cases h : k = k1
    · subst h
      have h2 : (key == k) = false := by simpa using hk
      simpa [List.filter_cons, List.lookup_cons, h2] using ih
    · have h1 : (k != k1) = true := by simpa using h
      simp only [List.filter_cons, h1, if_true, List.lookup_cons]
      rw [ih]

theorem lookup_cons_self {β : Type} (key : Nat) (v : β) (c : List (Nat × β)) :
    ((key, v) :: c).lookup key = some v := by
  simp [List.lookup_cons]

theorem lookup_cons_ne {β : Type} (key k1 : Nat) (hk : key ≠ k1) (v : β)
    (c : List (Nat × β)) : ((k1, v) :: c).lookup key = c.lookup key := by
  have h2 : (key == k1) = false := by simpa using hk
  simp [List.lookup_cons, h2]

/-! ## Lemmas on the interner -/

theorem weakValue_eq_some {m : IdentMem} {wp q : Nat} (h : weakValue m wp = some q) :
    q = wp ∧ ∃ s, m.strings[wp]? = some (some s) := by
  unfold weakValue at h
  split at h
  · next s hs => exact ⟨(Option.some.inj h).symm, s, hs⟩
  · cases h

theorem weakValue_of_live {m : IdentMem} {wp : Nat} {s : String}
    (h : m.strings[wp]? = some (some s)) : weakValue m wp = some wp := by
  unfold weakValue
  rw [h]

theorem loop_hit (d : Deps) (value : String) (key fuel : Nat) (ti : Option Nat)
    (m : IdentMem) (wp q : Nat) (hl : cacheLoad m.identCache key = some wp)
    (hv : weakValue m wp = some q) :
    makeIdentHandleLoop d value key (fuel + 1) ti m = some (.returned ⟨q⟩ m) := by
  simp [makeIdentHandleLoop, loadOrInsert, hl, hv]

theorem loop_decayed (d : Deps) (value : String) (key fuel : Nat) (ti : Option Nat)
    (m : IdentMem) (wp : Nat) (hl : cacheLoad m.identCache key = some wp)
    (hv : weakValue m wp = none) :
    makeIdentHandleLoop d value key (fuel + 1) ti m =
      makeIdentHandleLoop d value key fuel ti
        { m with identCache := m.identCache.filter (fun e => e.1 != key) } := by
  have hl2 : m.identCache.lookup key = some wp := hl
  simp [makeIdentHandleLoop, loadOrInsert, hl, hv, cacheCompareAndDelete, hl2]

theorem loop_miss_valid (d : Deps) (value : String) (key fuel : Nat) (m : IdentMem)
    (hl : cacheLoad m.identCache key = none) (hvalid : d.validateIdent value = true) :
    makeIdentHandleLoop d value key (fuel + 1) none m =
      some (.returned ⟨m.strings.length⟩
        { strings := m.strings ++ [some value],
          identCache := (key, m.strings.length) :: m.identCache }) := by
  have hl2 : m.identCache.lookup key = none := hl
  simp [makeIdentHandleLoop, loadOrInsert, hl, hvalid, cacheLoadOrStore, hl2, weakValue]

theorem loop_miss_invalid (d : Deps) (value : String) (key fuel : Nat) (m : IdentMem)
    (hl : cacheLoad m.identCache key = none) (hinv : d.validateIdent value = false) :
    makeIdentHandleLoop d value key (fuel + 1) none m =
      some (.panicked (.invalidIdentifier value) m) := by
  simp [makeIdentHandleLoop, loadOrInsert, hl, hinv]

/-- The cache maps `key` to the weak pointer `p` and `p` still resolves. -/
theorem loadOrInsert_spec (d : Deps) (value : String) (key : Nat) (ti : Option Nat)
    (m : IdentMem) (ti1 : Option Nat) (m1 : IdentMem) (wp : Nat)
    (h : loadOrInsert d value key ti m = .ok (ti1, m1, wp)) :
    cacheLoad m1.identCache key = some wp ∧
    ∀ k p, cacheLoad m.identCache k = some p → weakValue m p = some p →
      cacheLoad m1.identCache k = some p ∧ weakValue m1 p = some p := by
  unfold loadOrInsert at h
  cases hl : cacheLoad m.identCache key with
  | some w =>
    rw [hl] at h
    simp only [Except.ok.injEq, Prod.mk.injEq] at h
    obtain ⟨_, rfl, rfl⟩ := h
    exact ⟨hl, fun k p h1 h2 => ⟨h1, h2⟩⟩
  | none =>
    rw [hl] at h
    have hl2 : m.identCache.lookup key = none := hl
    cases ti with
    | none =>
      by_cases hv : d.validateIdent value = true
      · simp only [hv, Bool.not_true, Bool.false_eq_true, if_false, cacheLoadOrStore, hl2,
          Except.ok.injEq, Prod.mk.injEq] at h
        obtain ⟨_, rfl, rfl⟩ := h
        refine ⟨lookup_cons_self _ _ _, fun k p h1 h2 => ?_⟩
        have hk : k ≠ key := by
          intro hk
          subst hk
          rw [hl] at h1
          cases h1
        obtain ⟨_, s, hs⟩ := weakValue_eq_some h2
        have hlt : p < m.strings.length := by
          by_contra hcon
          rw [List.getElem?_eq_none (by omega)] at hs
          cases hs
        refine ⟨?_, ?_⟩
        · show List.lookup k ((key, m.strings.length) :: m.identCache) = some p
          rw [lookup_cons_ne k key hk]
          exact h1
        · apply weakValue_of_live (s := s)
          show (m.strings ++ [some value])[p]? = some (some s)
          rw [List.getElem?_append_left hlt]
          exact hs
      · simp [hv] at h
    | some p0 =>
      simp only [cacheLoadOrStore, hl2, Except.ok.injEq, Prod.mk.injEq] at h
      obtain ⟨_, rfl, rfl⟩ := h
      refine ⟨lookup_cons_self _ _ _, fun k p h1 h2 => ?_⟩
      have hk : k ≠ key := by
        intro hk
        subst hk
        rw [hl] at h1
        cases h1
      refine ⟨?_, h2⟩
      show List.lookup k ((key, p0) :: m.identCache) = some p
      rw [lookup_cons_ne k key hk]
      exact h1

/-- A live cache entry survives every run of the loop, whatever the content
and the key the loop works on. -/
theorem loop_keeps_live (d : Deps) (value : String) (key k p : Nat) :
    ∀ (fuel : Nat) (ti : Option Nat) (m : IdentMem) (o : Outcome IdentMem Ident),
      cacheLoad m.identCache k = some p → weakValue m p = some p →
      makeIdentHandleLoop d value key fuel ti m = some o →
      cacheLoad o.state.identCache k = some p ∧ weakValue o.state p = some p := by
  intro fuel
  induction fuel with
  | zero => intro ti m o _ _ h; simp [makeIdentHandleLoop] at h
  | succ n ih =>
    intro ti m o h1 h2 h
    unfold makeIdentHandleLoop at h
    cases hs : loadOrInsert d value key ti m with
    | error e =>
      rw [hs] at h
      simp only [Option.some.injEq] at h
      subst h
      exact ⟨h1, h2⟩
    | ok r =>
      obtain ⟨ti1, m1, wp⟩ := r
      rw [hs] at h
      obtain ⟨hwp, hkeep⟩ := loadOrInsert_spec d value key ti m ti1 m1 wp hs
      obtain ⟨h1a, h2a⟩ := hkeep k p h1 h2
      simp only at h
      cases hv : weakValue m1 wp with
      | some q =>
        rw [hv] at h
        simp only [Option.some.injEq] at h
        subst h
        exact ⟨h1a, h2a⟩
      | none =>
        rw [hv] at h
        simp only at h
        have hk : k ≠ key := by
          intro hk
          subst hk
          rw [hwp] at h1a
          cases h1a
          rw [hv] at h2a
          cases h2a
        refine ih ti1
          { strings := m1.strings, identCache := cacheCompareAndDelete m1.identCache key wp }
          o ?_ h2a h
        show cacheLoad (cacheCompareAndDelete m1.identCache key wp) k = some p
        unfold cacheCompareAndDelete
        split
        · show List.lookup k _ = some p
          rw [lookup_filter_ne k key hk]
          exact h1a
        · exact h1a

/-- When the loop returns, the cache maps the key to the returned pointer and
the pointer resolves. -/
theorem loop_returned_live (d : Deps) (value : String) (key : Nat) :
    ∀ (fuel : Nat) (ti : Option Nat) (m : IdentMem) (p : Nat) (m1 : IdentMem),
      makeIdentHandleLoop d value key fuel ti m = some (.returned ⟨p⟩ m1) →
      cacheLoad m1.identCache key = some p ∧ weakValue m1 p = some p := by
  intro fuel
  induction fuel with
  | zero => intro ti m p m1 h; simp [makeIdentHandleLoop] at h
  | succ n ih =>
    intro ti m p m1 h
    unfold makeIdentHandleLoop at h
    cases hs : loadOrInsert d value key ti m with
    | error e =>
      rw [hs] at h
      simp at h
    | ok r =>
      obtain ⟨ti1, m2, wp⟩ := r
      rw [hs] at h
      obtain ⟨hwp, _⟩ := loadOrInsert_spec d value key ti m ti1 m2 wp hs
      simp only at h
      cases hv : weakValue m2 wp with
      | some q =>
        rw [hv] at h
        simp only [Option.some.injEq, Outcome.returned.injEq, Ident.mk.injEq] at h
        obtain ⟨rfl, rfl⟩ := h
        obtain ⟨rfl, _⟩ := weakValue_eq_some hv
        exact ⟨hwp, hv⟩
      | none =>
        rw [hv] at h
        exact ih ti1 _ p m1 h

theorem applyEvent_keeps_live (d : Deps) (k p : Nat) (m : IdentMem) (e : Event)
    (he : e ≠ Event.reclaim p)
    (h1 : cacheLoad m.identCache k = some p) (h2 : weakValue m p = some p) :
    cacheLoad (applyEvent d m e).identCache k = some p ∧
      weakValue (applyEvent d m e) p = some p := by
  cases e with
  | call fuel value =>
    have hdef : applyEvent d m (Event.call fuel value) =
        match makeIdentHandle d fuel m value with
        | some o => o.state
        | none => m := rfl
    rw [hdef]
    cases hr : makeIdentHandle d fuel m value with
    | none => exact ⟨h1, h2⟩
    | some o =>
      show cacheLoad o.state.identCache k = some p ∧ weakValue o.state p = some p
      unfold makeIdentHandle at hr
      split at hr
      · simp only [Option.some.injEq] at hr
        subst hr
        exact ⟨h1, h2⟩
      · exact loop_keeps_live d value _ k p fuel none m o h1 h2 hr
  | reclaim a =>
    have ha : a ≠ p := fun h => he (by rw [h])
    refine ⟨h1, ?_⟩
    obtain ⟨_, s, hs⟩ := weakValue_eq_some h2
    apply weakValue_of_live (s := s)
    show (m.strings.set a none)[p]? = some (some s)
    rw [List.getElem?_set_ne ha]
    exact hs

theorem applyEvents_keeps_live (d : Deps) (k p : Nat) (es : List Event) :
    ∀ (m : IdentMem), (∀ a, Event.reclaim a ∈ es → a ≠ p) →
      cacheLoad m.identCache k = some p → weakValue m p = some p →
      cacheLoad (applyEvents d m es).identCache k = some p ∧
        weakValue (applyEvents d m es) p = some p := by
  induction es with
  | nil => intro m _ h1 h2; exact ⟨h1, h2⟩
  | cons e es ih =>
    intro m hal h1 h2
    have he : e ≠ Event.reclaim p := by
      intro h
      exact hal p (by simp [h]) rfl
    obtain ⟨h1a, h2a⟩ := applyEvent_keeps_live d k p m e he h1 h2
    exact ih (applyEvent d m e) (fun a ha => hal a (List.mem_cons_of_mem _ ha)) h1a h2a

/-! ## The identifier interner: claims C7, C8, C9 -/

/-- The three outcomes of `makeIdentHandle(value)` in any memory, with fuel
for two passes: the empty-identifier panic when `value` is empty; the
invalid-identifier panic when `value` is not empty, the cache holds no live
entry under its hash and `validateIdent(value)` is false; an Ident when the
cache holds a live entry under the hash or `validateIdent(value)` is true. -/
theorem makeIdentHandle_panics_or_returns (d : Deps) (m : IdentMem) (value : String)
    (fuel : Nat) (hfuel : 2 ≤ fuel) :
    (value.length = 0 →
      makeIdentHandle d fuel m value = some (.panicked .emptyIdentifier m)) ∧
    (value.length ≠ 0 → liveHit d m value = false → d.validateIdent value = false →
      ∃ m1, makeIdentHandle d fuel m value =
        some (.panicked (.invalidIdentifier value) m1)) ∧
    (value.length ≠ 0 → (liveHit d m value = true ∨ d.validateIdent value = true) →
      ∃ i m1, makeIdentHandle d fuel m value = some (.returned i m1)) := by
  obtain ⟨n, rfl⟩ : ∃ n, fuel = n + 2 := ⟨fuel - 2, by omega⟩
  refine ⟨fun h0 => by simp [makeIdentHandle, h0], fun hne hhit hinv => ?_,
    fun hne hor => ?_⟩
  · unfold makeIdentHandle
    rw [if_neg hne]
    unfold liveHit at hhit
    cases hl : cacheLoad m.identCache (maphashString d d.globalSeed value) with
    | none => exact ⟨m, loop_miss_invalid d value _ _ m hl hinv⟩
    | some wp =>
      rw [hl] at hhit
      have hv : weakValue m wp = none := by
        cases hw : weakValue m wp with
        | none => rfl
        | some q => simp [hw] at hhit
      rw [loop_decayed d value _ _ none m wp hl hv]
      exact ⟨_, loop_miss_invalid d value _ _ _ (lookup_filter_self _ _) hinv⟩
  · unfold makeIdentHandle
    rw [if_neg hne]
    cases hl : cacheLoad m.identCache (maphashString d d.globalSeed value) with
    | none =>
      have hvalid : d.validateIdent value = true := by
        rcases hor with h | h
        · simp [liveHit, hl] at h
        · exact h
      exact ⟨_, _, loop_miss_valid d value _ _ m hl hvalid⟩
    | some wp =>
      cases hw : weakValue m wp with
      | some q => exact ⟨_, _, loop_hit d value _ _ none m wp q hl hw⟩
      | none =>
        have hvalid : d.validateIdent value = true := by
          rcases hor with h | h
          · simp [liveHit, hl, hw] at h
          · exact h
        rw [loop_decayed d value _ _ none m wp hl hw]
        exact ⟨_, _, loop_miss_valid d value _ _ _ (lookup_filter_self _ _) hvalid⟩

theorem Interned.compareAndDelete {d : Deps} {A : String → Prop} {m : IdentMem}
    (h : Interned d A m) (key wp : Nat) :
    Interned d A { m with identCache := cacheCompareAndDelete m.identCache key wp } := by
  intro k p hl
  have hl1 : cacheLoad (cacheCompareAndDelete m.identCache key wp) k = some p := hl
  unfold cacheCompareAndDelete at hl1
  split at hl1
  · by_cases hk : k = key
    · subst hk
      have hnone : cacheLoad (m.identCache.filter (fun e => e.1 != k)) k = none :=
        lookup_filter_self k m.identCache
      rw [hnone] at hl1
      cases hl1
    · have heq : cacheLoad (m.identCache.filter (fun e => e.1 != key)) k =
          cacheLoad m.identCache k := lookup_filter_ne k key hk m.identCache
      rw [heq] at hl1
      exact h k p hl1
  · exact h k p hl1

theorem loadOrInsert_interned (d : Deps) (A : String → Prop) (value : String) (key : Nat)
    (ti : Option Nat) (m : IdentMem) (ti1 : Option Nat) (m1 : IdentMem) (wp : Nat)
    (hm : Interned d A m) (hti : PendingOK d A key ti m) (hne : value.length ≠ 0)
    (hA : A value) (hkey : maphashString d d.globalSeed value = key)
    (h : loadOrInsert d value key ti m = .ok (ti1, m1, wp)) :
    Interned d A m1 ∧ PendingOK d A key ti1 m1 := by
  unfold loadOrInsert at h
  cases hl : cacheLoad m.identCache key with
  | some w =>
    rw [hl] at h
    simp only [Except.ok.injEq, Prod.mk.injEq] at h
    obtain ⟨rfl, rfl, rfl⟩ := h
    exact ⟨hm, hti⟩
  | none =>
    rw [hl] at h
    have hl2 : m.identCache.lookup key = none := hl
    cases ti with
    | none =>
      by_cases hv : d.validateIdent value = true
      · simp only [hv, Bool.not_true, Bool.false_eq_true, if_false, cacheLoadOrStore, hl2,
          Except.ok.injEq, Prod.mk.injEq] at h
        obtain ⟨rfl, rfl, rfl⟩ := h
        have hnew : ∀ s, (m.strings ++ [some value])[m.strings.length]? = some (some s) →
            s.length ≠ 0 ∧ d.validateIdent s = true ∧
              maphashString d d.globalSeed s = key ∧ A s := by
          intro s hs
          rw [List.getElem?_append_right (Nat.le_refl _)] at hs
          simp only [Nat.sub_self, List.getElem?_cons_zero, Option.some.injEq] at hs
          subst hs
          exact ⟨hne, hv, hkey, hA⟩
        refine ⟨fun k p hk => ?_, fun p hp => ?_⟩
        · have hk1 : List.lookup k ((key, m.strings.length) :: m.identCache) = some p := hk
          by_cases hkk : k = key
          · subst hkk
            rw [lookup_cons_self] at hk1
            cases hk1
            exact ⟨by simp, hnew⟩
          · rw [lookup_cons_ne k key hkk] at hk1
            obtain ⟨hlt, hgood⟩ := hm k p hk1
            refine ⟨by simp; omega, fun s hs => hgood s ?_⟩
            have hs1 : (m.strings ++ [some value])[p]? = some (some s) := hs
            rwa [List.getElem?_append_left hlt] at hs1
        · cases hp
          exact ⟨by simp, hnew⟩
      · simp [hv] at h
    | some p0 =>
      simp only [cacheLoadOrStore, hl2, Except.ok.injEq, Prod.mk.injEq] at h
      obtain ⟨rfl, rfl, rfl⟩ := h
      refine ⟨fun k p hk => ?_, hti⟩
      have hk1 : List.lookup k ((key, p0) :: m.identCache) = some p := hk
      by_cases hkk : k = key
      · subst hkk
        rw [lookup_cons_self] at hk1
        cases hk1
        exact hti p0 rfl
      · rw [lookup_cons_ne k key hkk] at hk1
        exact hm k p hk1

theorem loop_interned (d : Deps) (A : String → Prop) (value : String) (key : Nat)
    (hne : value.length ≠ 0) (hA : A value)
    (hkey : maphashString d d.globalSeed value = key) :
    ∀ (fuel : Nat) (ti : Option Nat) (m : IdentMem) (o : Outcome IdentMem Ident),
      Interned d A m → PendingOK d A key ti m →
      makeIdentHandleLoop d value key fuel ti m = some o → Interned d A o.state := by
  intro fuel
  induction fuel with
  | zero => intro ti m o _ _ h; simp [makeIdentHandleLoop] at h
  | succ n ih =>
    intro ti m o hm hti h
    unfold makeIdentHandleLoop at h
    cases hs : loadOrInsert d value key ti m with
    | error e =>
      rw [hs] at h
      simp only [Option.some.injEq] at h
      subst h
      exact hm
    | ok r =>
      obtain ⟨ti1, m1, wp⟩ := r
      rw [hs] at h
      obtain ⟨hm1, hti1⟩ :=
        loadOrInsert_interned d A value key ti m ti1 m1 wp hm hti hne hA hkey hs
      simp only at h
      cases hv : weakValue m1 wp with
      | some q =>
        rw [hv] at h
        simp only [Option.some.injEq] at h
        subst h
        exact hm1
      | none =>
        rw [hv] at h
        simp only at h
        exact ih ti1
          { strings := m1.strings, identCache := cacheCompareAndDelete m1.identCache key wp }
          o (hm1.compareAndDelete key wp) hti1 h

theorem applyEvent_interned (d : Deps) (A : String → Prop) (m : IdentMem) (e : Event)
    (hA : ∀ fuel value, e = Event.call fuel value → A value) (hm : Interned d A m) :
    Interned d A (applyEvent d m e) := by
  cases e with
  | call fuel value =>
    have hdef : applyEvent d m (Event.call fuel value) =
        match makeIdentHandle d fuel m value with
        | some o => o.state
        | none => m := rfl
    rw [hdef]
    cases hr : makeIdentHandle d fuel m value with
    | none => exact hm
    | some o =>
      show Interned d A o.state
      unfold makeIdentHandle at hr
      split at hr
      · simp only [Option.some.injEq] at hr
        subst hr
        exact hm
      · next hne =>
        exact loop_interned d A value _ hne (hA fuel value rfl) rfl fuel none m o hm
          (fun p hp => by cases hp) hr
  | reclaim a =>
    intro k p hl
    obtain ⟨hlt, hgood⟩ := hm k p hl
    refine ⟨by simpa [applyEvent] using hlt, fun s hs => hgood s ?_⟩
    have hs1 : (m.strings.set a none)[p]? = some (some s) := hs
    by_cases hap : a = p
    · subst hap
      rw [List.getElem?_set_self hlt] at hs1
      cases hs1
    · rwa [List.getElem?_set_ne hap] at hs1

theorem applyEvents_interned (d : Deps) (A : String → Prop) (es : List Event) :
    ∀ (m : IdentMem), (∀ fuel value, Event.call fuel value ∈ es → A value) →
      Interned d A m → Interned d A (applyEvents d m es) := by
  induction es with
  | nil => intro m _ h; exact h
  | cons e es ih =>
    intro m hA h
    exact ih (applyEvent d m e) (fun f v hv => hA f v (List.mem_cons_of_mem _ hv))
      (applyEvent_interned d A m e
        (fun f v he => hA f v (by rw [he]; exact List.mem_cons_self _ _)) h)

theorem emptyMem_interned (d : Deps) (A : String → Prop) : Interned d A emptyMem := by
  intro k p hl
  simp [emptyMem, cacheLoad] at hl

/-- C7: in every state of the identifier cache, that is every state reached
from the empty interner by calls of `makeIdentHandle` and reclaims, such that
no content the interner was called with other than `content` itself has the
hash of `content` (no hash collision), `makeIdentHandle(content)` panics if
`content` is empty (the empty-identifier condition) or fails the identifier
grammar (`validateIdent(content)` is false: the invalid-identifier condition),
and returns an Ident otherwise. -/
theorem makeIdentHandle_validates (d : Deps) (es : List Event) (content : String)
    (fuel : Nat) (hfuel : 2 ≤ fuel)
    (hcol : ∀ f s, Event.call f s ∈ es →
      maphashString d d.globalSeed s = maphashString d d.globalSeed content →
      s = content) :
    (content.length = 0 →
      makeIdentHandle d fuel (applyEvents d emptyMem es) content =
        some (.panicked .emptyIdentifier (applyEvents d emptyMem es))) ∧
    (content.length ≠ 0 → d.validateIdent content = false →
      ∃ m1, makeIdentHandle d fuel (applyEvents d emptyMem es) content =
        some (.panicked (.invalidIdentifier content) m1)) ∧
    (content.length ≠ 0 → d.validateIdent content = true →
      ∃ i m1, makeIdentHandle d fuel (applyEvents d emptyMem es) content =
        some (.returned i m1)) := by
  have hint := applyEvents_interned d (calledWith es) es emptyMem
    (fun f v hv => ⟨f, hv⟩) (emptyMem_interned d _)
  have h := makeIdentHandle_panics_or_returns d (applyEvents d emptyMem es) content fuel hfuel
  refine ⟨h.1, fun hne hinv => h.2.1 hne ?_ hinv, fun hne hv => h.2.2 hne (Or.inr hv)⟩
  unfold liveHit
  cases hl : cacheLoad (applyEvents d emptyMem es).identCache
      (maphashString d d.globalSeed content) with
  | none => rfl
  | some wp =>
    cases hw : weakValue (applyEvents d emptyMem es) wp with
    | none => simp [hw]
    | some q =>
      exfalso
      obtain ⟨_, s, hs⟩ := weakValue_eq_some hw
      obtain ⟨_, hvalid, hhash, ⟨f, hmem⟩⟩ := (hint _ wp hl).2 s hs
      have hsc : s = content := hcol f s hmem hhash
      subst hsc
      rw [hinv] at hvalid
      cases hvalid

/-- Witness for C7: after `"aL"` and `"foo"` were interned and the string of
`"foo"` was reclaimed, the invalid content `"1x"`, whose hash neither of them
has, is refused. -/
theorem makeIdentHandle_validates_witness :
    sampleDeps.validateIdent "1x" = false ∧
    ∃ m1, makeIdentHandle sampleDeps 2 (applyEvents sampleDeps emptyMem sampleEvents) "1x" =
      some (.panicked (.invalidIdentifier "1x") m1) :=
  ⟨by decide,
    (makeIdentHandle_validates sampleDeps sampleEvents "1x" 2 (by decide)
      (by
        intro f s hmem hhash
        simp only [sampleEvents, List.mem_cons, Event.call.injEq, List.mem_singleton,
          reduceCtorEq, or_false, List.not_mem_nil] at hmem
        rcases hmem with ⟨_, rfl⟩ | ⟨_, rfl⟩
        · exact absurd hhash (by decide)
        · exact absurd hhash (by decide))).2.1 (by decide) (by decide)⟩

/-- C8: once `makeIdentHandle(content)` has returned an Ident with pointer `p`,
then after any later events (other calls of `makeIdentHandle`, reclaiming of
strings other than `p`, which is still alive), `makeIdentHandle(content)`
returns an Ident with the same pointer `p` in a single pass of the loop, leaves
the memory (so the cache entry) as it found it, and does so whatever
`validateIdent` is: the content is not validated again. -/
theorem makeIdentHandle_same_pointer (d : Deps) (m0 m1 : IdentMem) (content : String)
    (fuel0 p : Nat) (es : List Event) (fuel : Nat) (v : String → Bool)
    (hfirst : makeIdentHandle d fuel0 m0 content = some (.returned ⟨p⟩ m1))
    (halive : ∀ a, Event.reclaim a ∈ es → a ≠ p) (hfuel : 0 < fuel) :
    makeIdentHandle { d with validateIdent := v } fuel (applyEvents d m1 es) content =
      some (.returned ⟨p⟩ (applyEvents d m1 es)) := by
  obtain ⟨n, rfl⟩ : ∃ n, fuel = n + 1 := ⟨fuel - 1, by omega⟩
  unfold makeIdentHandle at hfirst
  split at hfirst
  · simp at hfirst
  · next hne =>
    obtain ⟨h1, h2⟩ := loop_returned_live d content _ fuel0 none m0 p m1 hfirst
    obtain ⟨h3, h4⟩ := applyEvents_keeps_live d _ p es m1 halive h1 h2
    unfold makeIdentHandle
    rw [if_neg hne]
    exact loop_hit _ content _ n none _ p p h3 h4

/-- Witness for C8: `"aL"` is interned, an invalid content is tried, another
content is interned and an unrelated address is reclaimed; a validator that
refuses everything still gets the same pointer back. -/
theorem makeIdentHandle_same_pointer_witness :
    makeIdentHandle { sampleDeps with validateIdent := fun _ => false } 1
      (applyEvents sampleDeps memAfterAL [.call 2 "1x", .call 2 "foo", .reclaim 1]) "aL" =
      some (.returned ⟨0⟩
        (applyEvents sampleDeps memAfterAL [.call 2 "1x", .call 2 "foo", .reclaim 1])) :=
  makeIdentHandle_same_pointer sampleDeps emptyMem memAfterAL "aL" 2 0
    [.call 2 "1x", .call 2 "foo", .reclaim 1] 1 (fun _ => false) (by decide)
    (by intro a ha; simp at ha; omega) (by decide)

/-- C9: for every non-empty valid content and every state of the interner,
`makeIdentHandle` with fuel for two passes of the loop body returns (it neither
panics nor runs out of fuel) an Ident whose pointer is the address of a live
string, and afterwards the cache maps the content's hash to that pointer. When
the entry found was a decayed weak pointer, it was removed and replaced: the
result is a fresh copy of the content, and the cache is the old one without the
stale entry plus the new entry. -/
theorem makeIdentHandle_terminates_live (d : Deps) (m : IdentMem) (value : String)
    (fuel : Nat) (hne : value.length ≠ 0) (hvalid : d.validateIdent value = true)
    (hfuel : 2 ≤ fuel) :
    ∃ p m1, makeIdentHandle d fuel m value = some (.returned ⟨p⟩ m1) ∧
      (∃ s, m1.strings[p]? = some (some s)) ∧
      cacheLoad m1.identCache (maphashString d d.globalSeed value) = some p ∧
      (∀ wp, cacheLoad m.identCache (maphashString d d.globalSeed value) = some wp →
        weakValue m wp = none →
        p = m.strings.length ∧ m1.strings = m.strings ++ [some value] ∧
        m1.identCache = (maphashString d d.globalSeed value, p) ::
          m.identCache.filter (fun e => e.1 != maphashString d d.globalSeed value)) := by
  obtain ⟨n, rfl⟩ : ∃ n, fuel = n + 2 := ⟨fuel - 2, by omega⟩
  have key : ∀ p m1, makeIdentHandle d (n + 2) m value = some (.returned ⟨p⟩ m1) →
      (∃ s, m1.strings[p]? = some (some s)) ∧
      cacheLoad m1.identCache (maphashString d d.globalSeed value) = some p := by
    intro p m1 h
    unfold makeIdentHandle at h
    rw [if_neg hne] at h
    obtain ⟨h1, h2⟩ := loop_returned_live d value _ _ none m p m1 h
    exact ⟨(weakValue_eq_some h2).2, h1⟩
  cases hl : cacheLoad m.identCache (maphashString d d.globalSeed value) with
  | none =>
    have hr : makeIdentHandle d (n + 2) m value =
        some (.returned ⟨m.strings.length⟩
          { strings := m.strings ++ [some value],
            identCache := (maphashString d d.globalSeed value, m.strings.length) ::
              m.identCache }) := by
      unfold makeIdentHandle
      rw [if_neg hne]
      exact loop_miss_valid d value _ _ m hl hvalid
    refine ⟨_, _, hr, (key _ _ hr).1, (key _ _ hr).2, fun wp hwp _ => ?_⟩
    cases hwp
  | some wp =>
    cases hw : weakValue m wp with
    | some q =>
      have hr : makeIdentHandle d (n + 2) m value = some (.returned ⟨q⟩ m) := by
        unfold makeIdentHandle
        rw [if_neg hne]
        exact loop_hit d value _ _ none m wp q hl hw
      refine ⟨_, _, hr, (key _ _ hr).1, (key _ _ hr).2, fun wp1 hwp1 hdec => ?_⟩
      cases hwp1
      rw [hw] at hdec
      cases hdec
    | none =>
      have hr : makeIdentHandle d (n + 2) m value =
          some (.returned ⟨m.strings.length⟩
            { strings := m.strings ++ [some value],
              identCache := (maphashString d d.globalSeed value, m.strings.length) ::
                m.identCache.filter
                  (fun e => e.1 != maphashString d d.globalSeed value) }) := by
        unfold makeIdentHandle
        rw [if_neg hne, loop_decayed d value _ _ none m wp hl hw]
        exact loop_miss_valid d value _ _ _ (lookup_filter_self _ _) hvalid
      exact ⟨_, _, hr, (key _ _ hr).1, (key _ _ hr).2, fun _ _ _ => ⟨rfl, rfl, rfl⟩⟩

/-- Witness for C9: the interner whose entry for `"aL"` has decayed. -/
theorem makeIdentHandle_terminates_live_witness :
    "aL".length ≠ 0 ∧ sampleDeps.validateIdent "aL" = true ∧
    ∃ p m1, makeIdentHandle sampleDeps 2 memDecayedAL "aL" = some (.returned ⟨p⟩ m1) ∧
      (∃ s, m1.strings[p]? = some (some s)) ∧
      cacheLoad m1.identCache (maphashString sampleDeps sampleDeps.globalSeed "aL") = some p ∧
      (∀ wp,
        cacheLoad memDecayedAL.identCache
          (maphashString sampleDeps sampleDeps.globalSeed "aL") = some wp →
        weakValue memDecayedAL wp = none →
        p = memDecayedAL.strings.length ∧
        m1.strings = memDecayedAL.strings ++ [some "aL"] ∧
        m1.identCache = (maphashString sampleDeps sampleDeps.globalSeed "aL", p) ::
          memDecayedAL.identCache.filter
            (fun e => e.1 != maphashString sampleDeps sampleDeps.globalSeed "aL")) :=
  ⟨by decide, by decide,
    makeIdentHandle_terminates_live sampleDeps memDecayedAL "aL" 2 (by decide) (by decide)
      (by decide)⟩

/-! ## Lemmas on the Set registry -/

theorem lookup_none_not_mem_keys {β : Type} (key : Nat) (c : List (Nat × β))
    (h : c.lookup key = none) : key ∉ c.map Prod.fst := by
  induction c with
  | nil => simp
  | cons e c ih =>
    obtain ⟨k, v⟩ := e
    by_cases hk : key = k
    · subst hk
      simp [List.lookup_cons] at h
    · rw [lookup_cons_ne key k hk] at h
      simp only [List.map_cons, List.mem_cons, not_or]
      exact ⟨hk, ih h⟩

theorem assertCounter_state (nm : namedMetric) (w : World) :
    (assertCounter nm w).state = w := by
  unfold assertCounter
  cases nm.metric <;> rfl

theorem assertGauge_state (nm : namedMetric) (w : World) :
    (assertGauge nm w).state = w := by
  unfold assertGauge
  cases nm.metric <;> rfl

theorem MustIdent_eq {d : Deps} {s f : String} (h : MustIdent d s = .ok f) : f = s := by
  unfold MustIdent at h
  split at h
  · cases h
  · split at h
    · cases h
    · exact (Except.ok.inj h).symm

theorem MustValue_eq {d : Deps} {s v : String} (h : MustValue d s = .ok v) : v = s := by
  unfold MustValue at h
  split at h
  · cases h
  · exact (Except.ok.inj h).symm

theorem pairTags_labels_values (d : Deps) :
    ∀ (n : Nat) (tags : List String) (ts : List Tag), tags.length ≤ n →
      pairTags d tags = .ok ts →
      ts.map Tag.label = flatLabels tags ∧ ts.map Tag.value = flatValues tags := by
  intro n
  induction n with
  | zero =>
    intro tags ts hlen hp
    have : tags = [] := List.length_eq_zero.mp (by omega)
    subst this
    simp only [pairTags, Except.ok.injEq] at hp
    subst hp
    exact ⟨rfl, rfl⟩
  | succ n ih =>
    intro tags ts hlen hp
    match tags, hp with
    | [], hp =>
      simp only [pairTags, Except.ok.injEq] at hp
      subst hp
      exact ⟨rfl, rfl⟩
    | [_], hp => simp [pairTags] at hp
    | l :: v :: rest, hp =>
      unfold pairTags at hp
      cases h1 : MustIdent d l with
      | error e => rw [h1] at hp; simp at hp
      | ok l1 =>
        cases h2 : MustValue d v with
        | error e => rw [h1, h2] at hp; simp at hp
        | ok v1 =>
          cases h3 : pairTags d rest with
          | error e => rw [h1, h2, h3] at hp; simp at hp
          | ok ts1 =>
            rw [h1, h2, h3] at hp
            simp only [Except.ok.injEq] at hp
            subst hp
            obtain ⟨e1, e2⟩ := ih rest ts1 (by simp at hlen; omega) h3
            have hl := MustIdent_eq h1
            have hv := MustValue_eq h2
            subst hl hv
            simp only [List.map_cons, flatLabels, flatValues, e1, e2, and_self]

theorem MustIdent_ok {d : Deps} {s f : String} (h : MustIdent d s = .ok f) :
    f = s ∧ validIdent d s = true := by
  unfold MustIdent at h
  split at h
  · cases h
  · next hne =>
    split at h
    · cases h
    · next hv =>
      refine ⟨(Except.ok.inj h).symm, ?_⟩
      simp only [validIdent, Bool.and_eq_true, bne_iff_ne, ne_eq]
      exact ⟨hne, by simpa using hv⟩

theorem MustIdent_of_valid {d : Deps} {s : String} (h : validIdent d s = true) :
    MustIdent d s = .ok s := by
  simp only [validIdent, Bool.and_eq_true, bne_iff_ne, ne_eq] at h
  simp [MustIdent, h.1, h.2]

theorem getHashTags_eq_getHashStrings (d : Deps) (family f : String) (tags : List String)
    (ts : List Tag) (h1 : MustIdent d family = .ok f) (h2 : MustTags d tags = .ok ts) :
    getHashTags d f ts = getHashStrings d family tags := by
  obtain ⟨rfl, _⟩ := MustIdent_ok h1
  unfold MustTags at h2
  split at h2
  · cases h2
  · obtain ⟨e1, e2⟩ := pairTags_labels_values d tags.length tags ts (Nat.le_refl _) h2
    unfold getHashTags getHashStrings
    rw [e1, e2]

theorem flatLabels_pairFlat :
    ∀ (L V : List String), L.length = V.length → flatLabels (pairFlat L V) = L
  | [], [], _ => rfl
  | [], _ :: _, h => by simp at h
  | _ :: _, [], h => by simp at h
  | l :: ls, v :: vs, h => by
    simp only [pairFlat, flatLabels]
    rw [flatLabels_pairFlat ls vs (by simpa using h)]

theorem flatValues_pairFlat :
    ∀ (L V : List String), L.length = V.length → flatValues (pairFlat L V) = V
  | [], [], _ => rfl
  | [], _ :: _, h => by simp at h
  | _ :: _, [], h => by simp at h
  | l :: ls, v :: vs, h => by
    simp only [pairFlat, flatValues]
    rw [flatValues_pairFlat ls vs (by simpa using h)]

theorem fillTags_labels_values (d : Deps) :
    ∀ (pts : List Tag) (values : List String) (ts : List Tag),
      fillTags d pts values = .ok ts →
      ts.map Tag.label = pts.map Tag.label ∧ ts.map Tag.value = values
  | [], [], ts, h => by
    simp only [fillTags, Except.ok.injEq] at h
    subst h
    exact ⟨rfl, rfl⟩
  | [], _ :: _, ts, h => by simp [fillTags] at h
  | _ :: _, [], ts, h => by simp [fillTags] at h
  | t :: pts, v :: vs, ts, h => by
    unfold fillTags at h
    cases h2 : MustValue d v with
    | error e => rw [h2] at h; simp at h
    | ok v1 =>
      cases h3 : fillTags d pts vs with
      | error e => rw [h2, h3] at h; simp at h
      | ok r =>
        rw [h2, h3] at h
        simp only [Except.ok.injEq] at h
        subst h
        obtain ⟨e1, e2⟩ := fillTags_labels_values d pts vs r h3
        have hv := MustValue_eq h2
        subst hv
        simp only [List.map_cons, e1, e2, and_self]

theorem labelsToPartialTags_labels (d : Deps) :
    ∀ (labels : List String) (pts : List Tag), labelsToPartialTags d labels = .ok pts →
      pts.map Tag.label = labels
  | [], pts, h => by
    simp only [labelsToPartialTags, Except.ok.injEq] at h
    subst h
    rfl
  | label :: rest, pts, h => by
    unfold labelsToPartialTags at h
    cases h1 : MustIdent d label with
    | error e => rw [h1] at h; simp at h
    | ok l =>
      cases h2 : labelsToPartialTags d rest with
      | error e => rw [h1, h2] at h; simp at h
      | ok r =>
        rw [h1, h2] at h
        simp only [Except.ok.injEq] at h
        subst h
        have hl := MustIdent_eq h1
        subst hl
        simp only [List.map_cons, labelsToPartialTags_labels d rest r h2]

/-- The partial hash of a Vec built by `NewCounterVec` is the hash state of its
family and of the labels of its partial tags. -/
theorem NewCounterVec_partialHash (d : Deps) (opt : CounterVecOpt) (v : CounterVec)
    (h : NewCounterVec d opt = .ok v) :
    v.partialHash = hashStart d v.family (v.partialTags.map Tag.label) := by
  unfold NewCounterVec at h
  cases h1 : MustIdent d opt.Family with
  | error e => rw [h1] at h; simp at h
  | ok family =>
    cases h2 : labelsToPartialTags d opt.Labels with
    | error e => rw [h1, h2] at h; simp at h
    | ok pts =>
      rw [h1, h2] at h
      simp only [Except.ok.injEq] at h
      subst h
      simp only [labelsToPartialTags_labels d opt.Labels pts h2]

theorem NewCounter_effect (d : Deps) (w : World) (family : String) (tags : List String) :
    Effect (keyIsIdentityHash d) w (NewCounter d w family tags).state := by
  unfold NewCounter
  cases MustIdent d family with
  | error e => exact Effect.same
  | ok f =>
    cases MustTags d tags with
    | error e => exact Effect.same
    | ok ts =>
      simp only [NewCounterOpt, Set.mustRegisterMetric, Heap.newCounter]
      cases hl : w.set.metrics.lookup (getHashTags d f ts) with
      | some nm => exact Effect.allocCounter
      | none => exact Effect.addCounter _ _ hl rfl rfl

theorem NewGauge_effect (d : Deps) (w : World) (family : String) (fn : Bool)
    (tags : List String) :
    Effect (keyIsIdentityHash d) w (NewGauge d w family fn tags).state := by
  unfold NewGauge
  cases MustIdent d family with
  | error e => exact Effect.same
  | ok f =>
    cases MustTags d tags with
    | error e => exact Effect.same
    | ok ts =>
      simp only [NewGaugeOpt, Set.mustRegisterMetric, Heap.newGauge]
      cases hl : w.set.metrics.lookup (getHashTags d f ts) with
      | some nm => exact Effect.allocGauge fn
      | none => exact Effect.addGauge fn _ _ hl rfl rfl

theorem GetOrCreateCounter_effect (d : Deps) (w : World) (family : String)
    (tags : List String) :
    Effect (keyIsIdentityHash d) w (GetOrCreateCounter d w family tags).state := by
  cases hl : w.set.metrics.lookup (getHashStrings d family tags) with
  | some nm =>
    simp only [GetOrCreateCounter, hl, assertCounter_state]
    exact Effect.same
  | none =>
    cases h1 : MustIdent d family with
    | error e =>
      simp only [GetOrCreateCounter, hl, Set.getOrAddMetricFromStrings, h1, Heap.newCounter,
        Outcome.state]
      exact Effect.allocCounter
    | ok f =>
      cases h2 : MustTags d tags with
      | error e =>
        simp only [GetOrCreateCounter, hl, Set.getOrAddMetricFromStrings, h1, h2,
          Heap.newCounter, Outcome.state]
        exact Effect.allocCounter
      | ok ts =>
        simp only [GetOrCreateCounter, hl, Set.getOrAddMetricFromStrings, h1, h2,
          Heap.newCounter, assertCounter_state]
        exact Effect.addCounter _ _ hl rfl
          (getHashTags_eq_getHashStrings d family f tags ts h1 h2).symm

theorem GetOrCreateGauge_effect (d : Deps) (w : World) (family : String)
    (tags : List String) :
    Effect (keyIsIdentityHash d) w (GetOrCreateGauge d w family tags).state := by
  cases hl : w.set.metrics.lookup (getHashStrings d family tags) with
  | some nm =>
    simp only [GetOrCreateGauge, hl, assertGauge_state]
    exact Effect.same
  | none =>
    cases h1 : MustIdent d family with
    | error e =>
      simp only [GetOrCreateGauge, hl, Set.getOrAddMetricFromStrings, h1, Heap.newGauge,
        Outcome.state]
      exact Effect.allocGauge false
    | ok f =>
      cases h2 : MustTags d tags with
      | error e =>
        simp only [GetOrCreateGauge, hl, Set.getOrAddMetricFromStrings, h1, h2,
          Heap.newGauge, Outcome.state]
        exact Effect.allocGauge false
      | ok ts =>
        simp only [GetOrCreateGauge, hl, Set.getOrAddMetricFromStrings, h1, h2,
          Heap.newGauge, assertGauge_state]
        exact Effect.addGauge false _ _ hl rfl
          (getHashTags_eq_getHashStrings d family f tags ts h1 h2).symm

theorem WithLabelValues_effect (d : Deps) (v : CounterVec) (w : World)
    (values : List String)
    (hv : v.partialHash = hashStart d v.family (v.partialTags.map Tag.label)) :
    Effect (keyIsIdentityHash d) w (v.WithLabelValues d w values).state := by
  cases hl : w.set.metrics.lookup (hashFinish d v.partialHash values) with
  | some nm =>
    simp only [CounterVec.WithLabelValues, hl, assertCounter_state]
    exact Effect.same
  | none =>
    cases h1 : fillTags d v.partialTags values with
    | error e =>
      simp only [CounterVec.WithLabelValues, hl, Set.getOrRegisterMetricFromVec, h1,
        Heap.newCounter, Outcome.state]
      exact Effect.allocCounter
    | ok ts =>
      simp only [CounterVec.WithLabelValues, hl, Set.getOrRegisterMetricFromVec, h1,
        Heap.newCounter, assertCounter_state]
      refine Effect.addCounter _ _ hl rfl ?_
      obtain ⟨e1, e2⟩ := fillTags_labels_values d v.partialTags values ts h1
      show hashFinish d v.partialHash values = getHashTags d v.family ts
      unfold getHashTags hashFinish
      rw [hv, e1, e2]
      rfl

theorem Call_run_effect (d : Deps) (w : World) (c : Call) :
    Effect (keyIsIdentityHash d) w (c.run d w) := by
  cases c with
  | withLabelValues opt values =>
    simp only [Call.run]
    cases hv : NewCounterVec d opt with
    | error e => exact Effect.same
    | ok v => exact WithLabelValues_effect d v w values (NewCounterVec_partialHash d opt v hv)
  | newCounter family tags => exact NewCounter_effect d w family tags
  | getOrCreateCounter family tags => exact GetOrCreateCounter_effect d w family tags
  | newGauge family fn tags => exact NewGauge_effect d w family fn tags
  | getOrCreateGauge family tags => exact GetOrCreateGauge_effect d w family tags
  | counterOp c op => exact Effect.mutate c _

theorem Effect.lookup_mono {P : Nat → namedMetric → Prop} {w w1 : World}
    (h : Effect P w w1) (k : Nat) (nm : namedMetric)
    (hl : w.set.metrics.lookup k = some nm) : w1.set.metrics.lookup k = some nm := by
  cases h with
  | same => exact hl
  | allocCounter => exact hl
  | allocGauge b => exact hl
  | mutate c v => exact hl
  | addCounter h nm1 hnone hm _ =>
    have hk : k ≠ h := by
      intro hk
      subst hk
      rw [hl] at hnone
      cases hnone
    show List.lookup k ((h, nm1) :: w.set.metrics) = some nm
    rw [lookup_cons_ne k h hk]
    exact hl
  | addGauge b h nm1 hnone hm _ =>
    have hk : k ≠ h := by
      intro hk
      subst hk
      rw [hl] at hnone
      cases hnone
    show List.lookup k ((h, nm1) :: w.set.metrics) = some nm
    rw [lookup_cons_ne k h hk]
    exact hl

theorem runCalls_lookup_mono (d : Deps) (cs : List Call) :
    ∀ (w : World) (k : Nat) (nm : namedMetric), w.set.metrics.lookup k = some nm →
      (runCalls d w cs).set.metrics.lookup k = some nm := by
  induction cs with
  | nil => intro w k nm h; exact h
  | cons c cs ih =>
    intro w k nm h
    exact ih (c.run d w) k nm ((Call_run_effect d w c).lookup_mono k nm h)

theorem refInHeap_mono {hp hp1 : Heap} {m : Metric}
    (hc : hp.counters.length ≤ hp1.counters.length)
    (hg : hp.gauges.length ≤ hp1.gauges.length) (h : refInHeap hp m) : refInHeap hp1 m := by
  cases m with
  | counter c => exact Nat.lt_of_lt_of_le h hc
  | gauge g => exact Nat.lt_of_lt_of_le h hg

theorem WellFormed.of_same_set {w w1 : World} (hw : WellFormed w) (hs : w1.set = w.set)
    (hc : w.heap.counters.length ≤ w1.heap.counters.length)
    (hg : w.heap.gauges.length ≤ w1.heap.gauges.length) : WellFormed w1 := by
  obtain ⟨h1, h2, h3⟩ := hw
  refine ⟨by rw [hs]; exact h1, fun h nm hl => ?_, fun k1 k2 nm1 nm2 hl1 hl2 => ?_⟩
  · rw [hs] at hl
    exact refInHeap_mono hc hg (h2 h nm hl)
  · rw [hs] at hl1 hl2
    exact h3 k1 k2 nm1 nm2 hl1 hl2

theorem WellFormed.insert {w w1 : World} (hw : WellFormed w) (h : Nat) (nm : namedMetric)
    (hnone : w.set.metrics.lookup h = none)
    (hs : w1.set.metrics = (h, nm) :: w.set.metrics)
    (hc : w.heap.counters.length ≤ w1.heap.counters.length)
    (hg : w.heap.gauges.length ≤ w1.heap.gauges.length)
    (hnew : refInHeap w1.heap nm.metric) (hfresh : ¬ refInHeap w.heap nm.metric) :
    WellFormed w1 := by
  obtain ⟨h1, h2, h3⟩ := hw
  refine ⟨?_, fun k nm1 hl => ?_, fun k1 k2 nm1 nm2 hl1 hl2 hm => ?_⟩
  · rw [hs]
    simp only [List.map_cons, List.nodup_cons]
    exact ⟨lookup_none_not_mem_keys h _ hnone, h1⟩
  · rw [hs] at hl
    by_cases hk : k = h
    · subst hk
      rw [lookup_cons_self] at hl
      cases hl
      exact hnew
    · rw [lookup_cons_ne k h hk] at hl
      exact refInHeap_mono hc hg (h2 k nm1 hl)
  · rw [hs] at hl1 hl2
    by_cases hk1 : k1 = h
    · by_cases hk2 : k2 = h
      · rw [hk1, hk2]
      · subst hk1
        rw [lookup_cons_self] at hl1
        rw [lookup_cons_ne k2 _ hk2] at hl2
        cases hl1
        exact absurd (hm ▸ h2 k2 nm2 hl2) hfresh
    · by_cases hk2 : k2 = h
      · subst hk2
        rw [lookup_cons_self] at hl2
        rw [lookup_cons_ne k1 _ hk1] at hl1
        cases hl2
        exact absurd (hm ▸ h2 k1 nm1 hl1) hfresh
      · rw [lookup_cons_ne k1 h hk1] at hl1
        rw [lookup_cons_ne k2 h hk2] at hl2
        exact h3 k1 k2 nm1 nm2 hl1 hl2 hm

theorem Effect.wellFormed {P : Nat → namedMetric → Prop} {w w1 : World}
    (h : Effect P w w1) (hw : WellFormed w) : WellFormed w1 := by
  cases h with
  | same => exact hw
  | allocCounter => exact hw.of_same_set rfl (by simp) (Nat.le_refl _)
  | allocGauge b => exact hw.of_same_set rfl (Nat.le_refl _) (by simp)
  | mutate c v => exact hw.of_same_set rfl (by simp) (Nat.le_refl _)
  | addCounter h nm hnone hm _ =>
    refine hw.insert h nm hnone rfl (by simp) (Nat.le_refl _) ?_ ?_
    · rw [hm]; simp [refInHeap]
    · rw [hm]; simp [refInHeap]
  | addGauge b h nm hnone hm _ =>
    refine hw.insert h nm hnone rfl (Nat.le_refl _) (by simp) ?_ ?_
    · rw [hm]; simp [refInHeap]
    · rw [hm]; simp [refInHeap]

theorem freshWorld_wellFormed (hp : Heap) : WellFormed (freshWorld hp) := by
  refine ⟨by simp [freshWorld, NewSet], fun h nm hl => ?_, fun k1 k2 nm1 nm2 hl1 => ?_⟩
  · simp [freshWorld, NewSet] at hl
  · simp [freshWorld, NewSet] at hl1

theorem runCalls_wellFormed (d : Deps) (cs : List Call) :
    ∀ (w : World), WellFormed w → WellFormed (runCalls d w cs) := by
  induction cs with
  | nil => intro w h; exact h
  | cons c cs ih =>
    intro w h
    exact ih (c.run d w) ((Call_run_effect d w c).wellFormed h)

theorem Effect.keys {d : Deps} {w w1 : World} (h : Effect (keyIsIdentityHash d) w w1)
    (hw : ∀ e ∈ w.set.metrics, e.1 = getHashTags d e.2.family e.2.tags) :
    ∀ e ∈ w1.set.metrics, e.1 = getHashTags d e.2.family e.2.tags := by
  cases h with
  | same => exact hw
  | allocCounter => exact hw
  | allocGauge b => exact hw
  | mutate c v => exact hw
  | addCounter h nm hnone hm hP =>
    intro e he
    rcases List.mem_cons.mp he with rfl | he
    · exact hP
    · exact hw e he
  | addGauge b h nm hnone hm hP =>
    intro e he
    rcases List.mem_cons.mp he with rfl | he
    · exact hP
    · exact hw e he

theorem runCalls_keys (d : Deps) (cs : List Call) :
    ∀ (w : World), (∀ e ∈ w.set.metrics, e.1 = getHashTags d e.2.family e.2.tags) →
      ∀ e ∈ (runCalls d w cs).set.metrics, e.1 = getHashTags d e.2.family e.2.tags := by
  induction cs with
  | nil => intro w h; exact h
  | cons c cs ih =>
    intro w h
    exact ih (c.run d w) ((Call_run_effect d w c).keys h)

theorem filter_length_le_one {β : Type} (p : Nat × β → Bool) (K : Nat) :
    ∀ (l : List (Nat × β)), (l.map Prod.fst).Nodup →
      (∀ e ∈ l, p e = true → e.1 = K) → (l.filter p).length ≤ 1 := by
  intro l
  induction l with
  | nil => intro _ _; simp
  | cons e l ih =>
    intro hnd hk
    simp only [List.map_cons, List.nodup_cons] at hnd
    by_cases hp : p e = true
    · have hnil : l.filter p = [] := by
        rw [List.filter_eq_nil_iff]
        intro e1 he1 hp1
        have h1 : e1.1 = K := hk e1 (List.mem_cons_of_mem _ he1) hp1
        have h2 : e.1 = K := hk e (List.mem_cons_self _ _) hp
        exact hnd.1 (by rw [h2, ← h1]; exact List.mem_map_of_mem _ he1)
      simp [List.filter_cons, hp, hnil]
    · simp only [List.filter_cons, hp]
      exact ih hnd.2 (fun e1 he1 => hk e1 (List.mem_cons_of_mem _ he1))

theorem GetOrCreateCounter_found (d : Deps) (w : World) (family : String)
    (tags : List String) (nm : namedMetric)
    (hl : w.set.metrics.lookup (getHashStrings d family tags) = some nm) :
    GetOrCreateCounter d w family tags = assertCounter nm w := by
  simp only [GetOrCreateCounter, hl]

theorem GetOrCreateGauge_found (d : Deps) (w : World) (family : String)
    (tags : List String) (nm : namedMetric)
    (hl : w.set.metrics.lookup (getHashStrings d family tags) = some nm) :
    GetOrCreateGauge d w family tags = assertGauge nm w := by
  simp only [GetOrCreateGauge, hl]

theorem assertCounter_returned {nm : namedMetric} {w w1 : World} {c : Nat}
    (h : assertCounter nm w = .returned c w1) : nm.metric = .counter c ∧ w1 = w := by
  unfold assertCounter at h
  cases hm : nm.metric with
  | counter c1 =>
    rw [hm] at h
    simp only [Outcome.returned.injEq] at h
    exact ⟨by rw [h.1], h.2.symm⟩
  | gauge g => rw [hm] at h; cases h

theorem assertGauge_returned {nm : namedMetric} {w w1 : World} {g : Nat}
    (h : assertGauge nm w = .returned g w1) : nm.metric = .gauge g ∧ w1 = w := by
  unfold assertGauge at h
  cases hm : nm.metric with
  | gauge g1 =>
    rw [hm] at h
    simp only [Outcome.returned.injEq] at h
    exact ⟨by rw [h.1], h.2.symm⟩
  | counter c => rw [hm] at h; cases h

/-- After `GetOrCreateCounter` has returned `c`, the Set maps the identity hash
to an entry whose instrument is the counter `c`. -/
theorem GetOrCreateCounter_returned (d : Deps) (w w1 : World) (family : String)
    (tags : List String) (c : Nat)
    (h : GetOrCreateCounter d w family tags = .returned c w1) :
    ∃ nm, w1.set.metrics.lookup (getHashStrings d family tags) = some nm ∧
      nm.metric = .counter c := by
  cases hl : w.set.metrics.lookup (getHashStrings d family tags) with
  | some nm =>
    rw [GetOrCreateCounter_found d w family tags nm hl] at h
    obtain ⟨hm, rfl⟩ := assertCounter_returned h
    exact ⟨nm, hl, hm⟩
  | none =>
    cases h1 : MustIdent d family with
    | error e =>
      simp [GetOrCreateCounter, hl, Set.getOrAddMetricFromStrings, h1] at h
    | ok f =>
      cases h2 : MustTags d tags with
      | error e =>
        simp [GetOrCreateCounter, hl, Set.getOrAddMetricFromStrings, h1, h2] at h
      | ok ts =>
        simp only [GetOrCreateCounter, hl, Set.getOrAddMetricFromStrings, h1, h2] at h
        obtain ⟨hm, rfl⟩ := assertCounter_returned h
        exact ⟨_, lookup_cons_self _ _ _, hm⟩

theorem GetOrCreateGauge_returned (d : Deps) (w w1 : World) (family : String)
    (tags : List String) (g : Nat)
    (h : GetOrCreateGauge d w family tags = .returned g w1) :
    ∃ nm, w1.set.metrics.lookup (getHashStrings d family tags) = some nm ∧
      nm.metric = .gauge g := by
  cases hl : w.set.metrics.lookup (getHashStrings d family tags) with
  | some nm =>
    rw [GetOrCreateGauge_found d w family tags nm hl] at h
    obtain ⟨hm, rfl⟩ := assertGauge_returned h
    exact ⟨nm, hl, hm⟩
  | none =>
    cases h1 : MustIdent d family with
    | error e =>
      simp [GetOrCreateGauge, hl, Set.getOrAddMetricFromStrings, h1] at h
    | ok f =>
      cases h2 : MustTags d tags with
      | error e =>
        simp [GetOrCreateGauge, hl, Set.getOrAddMetricFromStrings, h1, h2] at h
      | ok ts =>
        simp only [GetOrCreateGauge, hl, Set.getOrAddMetricFromStrings, h1, h2] at h
        obtain ⟨hm, rfl⟩ := assertGauge_returned h
        exact ⟨_, lookup_cons_self _ _ _, hm⟩

/-- After `NewCounter` has returned `c`, the family and tags are valid and the
Set maps the identity hash to an entry whose instrument is the counter `c`. -/
theorem NewCounter_returned (d : Deps) (w w1 : World) (family : String)
    (tags : List String) (c : Nat) (h : NewCounter d w family tags = .returned c w1) :
    ∃ ts nm, MustIdent d family = .ok family ∧ MustTags d tags = .ok ts ∧
      w1.set.metrics.lookup (getHashTags d family ts) = some nm ∧
      nm.metric = .counter c := by
  unfold NewCounter at h
  cases h1 : MustIdent d family with
  | error e => rw [h1] at h; cases h
  | ok f =>
    obtain ⟨rfl, _⟩ := MustIdent_ok h1
    cases h2 : MustTags d tags with
    | error e => rw [h1, h2] at h; cases h
    | ok ts =>
      rw [h1, h2] at h
      simp only [NewCounterOpt, Set.mustRegisterMetric, Heap.newCounter] at h
      cases hl : w.set.metrics.lookup (getHashTags d f ts) with
      | some nm => rw [hl] at h; cases h
      | none =>
        rw [hl] at h
        simp only [Outcome.returned.injEq] at h
        obtain ⟨rfl, rfl⟩ := h
        exact ⟨ts, _, rfl, rfl, lookup_cons_self _ _ _, rfl⟩

theorem NewGauge_returned (d : Deps) (w w1 : World) (family : String) (fn : Bool)
    (tags : List String) (g : Nat) (h : NewGauge d w family fn tags = .returned g w1) :
    ∃ ts nm, MustIdent d family = .ok family ∧ MustTags d tags = .ok ts ∧
      w1.set.metrics.lookup (getHashTags d family ts) = some nm ∧
      nm.metric = .gauge g := by
  unfold NewGauge at h
  cases h1 : MustIdent d family with
  | error e => rw [h1] at h; cases h
  | ok f =>
    obtain ⟨rfl, _⟩ := MustIdent_ok h1
    cases h2 : MustTags d tags with
    | error e => rw [h1, h2] at h; cases h
    | ok ts =>
      rw [h1, h2] at h
      simp only [NewGaugeOpt, Set.mustRegisterMetric, Heap.newGauge] at h
      cases hl : w.set.metrics.lookup (getHashTags d f ts) with
      | some nm => rw [hl] at h; cases h
      | none =>
        rw [hl] at h
        simp only [Outcome.returned.injEq] at h
        obtain ⟨rfl, rfl⟩ := h
        exact ⟨ts, _, rfl, rfl, lookup_cons_self _ _ _, rfl⟩

theorem validFlatTags_pairTags (d : Deps) :
    ∀ (n : Nat) (tags : List String), tags.length ≤ n → validFlatTags d tags = true →
      tags.length % 2 = 0 ∧ ∃ ts, pairTags d tags = .ok ts := by
  intro n
  induction n with
  | zero =>
    intro tags hlen _
    have : tags = [] := List.length_eq_zero.mp (by omega)
    subst this
    exact ⟨rfl, [], rfl⟩
  | succ n ih =>
    intro tags hlen hv
    match tags, hv with
    | [], _ => exact ⟨rfl, [], rfl⟩
    | [_], hv => simp [validFlatTags] at hv
    | l :: v :: rest, hv =>
      simp only [validFlatTags, Bool.and_eq_true] at hv
      obtain ⟨⟨hl, hval⟩, hrest⟩ := hv
      obtain ⟨hev, ts, hts⟩ := ih rest (by simp at hlen; omega) hrest
      refine ⟨by simp only [List.length_cons]; omega, ?_⟩
      unfold pairTags
      rw [MustIdent_of_valid hl, hts]
      simp [MustValue, hval]

theorem MustTags_of_valid (d : Deps) (tags : List String)
    (hv : validFlatTags d tags = true) : ∃ ts, MustTags d tags = .ok ts := by
  obtain ⟨hev, ts, hts⟩ := validFlatTags_pairTags d tags.length tags (Nat.le_refl _) hv
  exact ⟨ts, by simp [MustTags, hev, hts]⟩

theorem Counter_Get_apply_ne (hp : Heap) (c1 c2 : Nat) (op : CounterOp) (h : c1 ≠ c2) :
    Counter.Get (Counter.apply hp c1 op) c2 = Counter.Get hp c2 := by
  simp only [Counter.Get, Counter.apply, List.getD_eq_getElem?_getD]
  rw [List.getElem?_set_ne h]

theorem Counter_Get_apply_self (hp : Heap) (c : Nat) (op : CounterOp)
    (h : c < hp.counters.length) :
    Counter.Get (Counter.apply hp c op) c = op.apply (Counter.Get hp c) := by
  simp only [Counter.Get, Counter.apply, List.getD_eq_getElem?_getD]
  rw [List.getElem?_set_self h]
  rfl

/-! ## Identity hashing: claim C1 -/

/-- C1: for every family `F`, label list `L` and value list `V` of the same
length as `L`, the hash `WithLabelValues` computes by finishing the Vec's
precomputed partial hash, `hashFinish(hashStart(F, L), V)`, equals the hash
`GetOrCreateCounter` computes for the flat tag list that pairs `L` and `V`
positionally, `getHashStrings(F, [L0, V0, L1, V1, ...])`, under the same
seed. -/
theorem hashFinish_hashStart (d : Deps) (F : String) (L V : List String)
    (hlen : L.length = V.length) :
    hashFinish d (hashStart d F L) V = getHashStrings d F (pairFlat L V) := by
  unfold hashFinish hashStart getHashStrings
  rw [flatLabels_pairFlat L V hlen, flatValues_pairFlat L V hlen]

/-- Witness for C1: family `foo`, labels `a`, `b`, values `1`, `2`. -/
theorem hashFinish_hashStart_witness :
    ["a", "b"].length = ["1", "2"].length ∧
    hashFinish sampleDeps (hashStart sampleDeps "foo" ["a", "b"]) ["1", "2"] =
      getHashStrings sampleDeps "foo" ["a", "1", "b", "2"] :=
  ⟨by decide, hashFinish_hashStart sampleDeps "foo" ["a", "b"] ["1", "2"] (by decide)⟩

/-! ## The Counter body: claim C6 -/

/-- C6 fails as stated: `Set(2^63 - 1)`, `Add(2^63 - 1)`, `Add(2)` on a new
counter folds to `2^64` over the integers, and `Get()` reads 0: a 64-bit
integer cannot hold `2^64`. -/
theorem counter_wraps :
    idealFold [.set (2 ^ 63 - 1), .add (2 ^ 63 - 1), .add 2] = 2 ^ 64 ∧
    Counter.Get
      (Counter.applyAll { counters := [0], gauges := [] } 0
        [.set (2 ^ 63 - 1), .add (2 ^ 63 - 1), .add 2]) 0 = 0 := by
  decide

theorem CounterOp_apply_cast (op : CounterOp) (n : Nat) (z : Int)
    (h : (n : Int) % 2 ^ 64 = z % 2 ^ 64) :
    ((op.apply n : Nat) : Int) = idealStep z op % 2 ^ 64 := by
  have h1 : (n : Int) % 18446744073709551616 = z % 18446744073709551616 := by
    simpa using h
  cases op with
  | inc =>
    simp only [CounterOp.apply, idealStep]
    push_cast
    omega
  | dec =>
    simp only [CounterOp.apply, idealStep]
    push_cast
    omega
  | add delta =>
    simp only [CounterOp.apply, idealStep]
    rw [Int.toNat_of_nonneg (Int.emod_nonneg _ (by norm_num))]
    norm_num
    omega
  | set value =>
    simp only [CounterOp.apply, idealStep]
    push_cast
    rfl

theorem Counter_applyAll_fold (c : Nat) (ops : List CounterOp) :
    ∀ (hp : Heap) (z : Int), c < hp.counters.length →
      (Counter.Get hp c : Int) % 2 ^ 64 = z % 2 ^ 64 →
      (Counter.Get (Counter.applyAll hp c ops) c : Int) % 2 ^ 64 =
        ops.foldl idealStep z % 2 ^ 64 := by
  induction ops with
  | nil => intro hp z _ h; exact h
  | cons op ops ih =>
    intro hp z hc h
    show (Counter.Get (Counter.applyAll (Counter.apply hp c op) c ops) c : Int) % 2 ^ 64 =
      ops.foldl idealStep (idealStep z op) % 2 ^ 64
    apply ih
    · simpa [Counter.apply] using hc
    · rw [Counter_Get_apply_self hp c op hc, CounterOp_apply_cast op _ z h]
      exact Int.emod_emod_of_dvd _ (dvd_refl _)

theorem Counter_Get_lt (c : Nat) (ops : List CounterOp) (hp : Heap)
    (h : Counter.Get hp c < 2 ^ 64) (hc : c < hp.counters.length) :
    Counter.Get (Counter.applyAll hp c ops) c < 2 ^ 64 := by
  induction ops generalizing hp with
  | nil => exact h
  | cons op ops ih =>
    show Counter.Get (Counter.applyAll (Counter.apply hp c op) c ops) c < 2 ^ 64
    apply ih
    · rw [Counter_Get_apply_self hp c op hc]
      cases op with
      | inc => exact Nat.mod_lt _ (by norm_num)
      | dec => exact Nat.mod_lt _ (by norm_num)
      | set v => exact Nat.mod_lt _ (by norm_num)
      | add delta =>
        simp only [CounterOp.apply]
        have h1 : ((Counter.Get hp c : Int) + delta) % 2 ^ 64 < 2 ^ 64 :=
          Int.emod_lt_of_pos _ (by norm_num)
        have h2 : 0 ≤ ((Counter.Get hp c : Int) + delta) % 2 ^ 64 :=
          Int.emod_nonneg _ (by norm_num)
        rw [Int.toNat_lt h2]
        exact_mod_cast h1
    · simpa [Counter.apply] using hc

theorem Counter_readings_eq (c : Nat) (ops : List CounterOp) :
    ∀ (hp : Heap), c < hp.counters.length →
      Counter.readings hp c ops = valueReadings (Counter.Get hp c) ops := by
  induction ops with
  | nil => intro hp _; rfl
  | cons op ops ih =>
    intro hp hc
    simp only [Counter.readings, valueReadings]
    rw [ih (Counter.apply hp c op) (by simpa [Counter.apply] using hc),
      Counter_Get_apply_self hp c op hc]

/-- C6 (amended): a newly registered Counter reads `Get() == 0`, and after
every sequence of `Inc`, `Dec`, `Add(d)` and `Set(v)` calls `Get()` returns the
fold of the sequence over 0 (`Inc = +1`, `Dec = -1`, `Add(d) = +d`, `Set(v) =`
replace by `v`) reduced modulo `2^64`; the sequence `Inc, Dec, Set(123), Dec,
Add(3)` yields 1, 0, 123, 122, 125. -/
theorem counter_fold_mod (d : Deps) (w w1 : World) (opt : CounterOpt) (c : Nat)
    (ops : List CounterOp) (hnew : NewCounterOpt d w opt = .returned c w1) :
    Counter.Get w1.heap c = 0 ∧
    (Counter.Get (Counter.applyAll w1.heap c ops) c : Int) = idealFold ops % 2 ^ 64 ∧
    Counter.readings w1.heap c [.inc, .dec, .set 123, .dec, .add 3] =
      [1, 0, 123, 122, 125] := by
  simp only [NewCounterOpt, Set.mustRegisterMetric, Heap.newCounter] at hnew
  cases hl : w.set.metrics.lookup (getHashTags d opt.Family opt.Tags) with
  | some nm => rw [hl] at hnew; cases hnew
  | none =>
    rw [hl] at hnew
    simp only [Outcome.returned.injEq] at hnew
    obtain ⟨rfl, rfl⟩ := hnew
    have hc : w.heap.counters.length < (w.heap.counters ++ [0]).length := by simp
    have h0 : Counter.Get { w.heap with counters := w.heap.counters ++ [0] }
        w.heap.counters.length = 0 := by
      simp [Counter.Get, List.getD_eq_getElem?_getD]
    refine ⟨h0, ?_, ?_⟩
    · have hfold := Counter_applyAll_fold w.heap.counters.length ops
        { w.heap with counters := w.heap.counters ++ [0] } 0 hc (by rw [h0]; rfl)
      have hlt := Counter_Get_lt w.heap.counters.length ops
        { w.heap with counters := w.heap.counters ++ [0] } (by rw [h0]; norm_num) hc
      rw [Int.emod_eq_of_lt (Int.ofNat_nonneg _) (by exact_mod_cast hlt)] at hfold
      exact hfold
    · rw [Counter_readings_eq _ _ _ hc, h0]
      decide

/-- Witness for C6 (amended): the counter of `TestCounterSerial`. -/
theorem counter_fold_mod_witness :
    Counter.Get (freshWorld { counters := [0], gauges := [] }).heap 0 = 0 ∧
    (Counter.Get (Counter.applyAll (freshWorld { counters := [0], gauges := [] }).heap 0
      [.inc, .dec, .set 123, .dec, .add 3]) 0 : Int) =
      idealFold [.inc, .dec, .set 123, .dec, .add 3] % 2 ^ 64 ∧
    Counter.readings (freshWorld { counters := [0], gauges := [] }).heap 0
      [.inc, .dec, .set 123, .dec, .add 3] = [1, 0, 123, 122, 125] := by
  have h := counter_fold_mod sampleDeps (freshWorld emptyHeap)
    { heap := { counters := [0], gauges := [] },
      set := { metrics := [(getHashTags sampleDeps "CounterSerial" [],
        { id := getHashTags sampleDeps "CounterSerial" [], family := "CounterSerial",
          tags := [], metric := .counter 0 })] } }
    { Family := "CounterSerial", Tags := [] } 0 [.inc, .dec, .set 123, .dec, .add 3]
    (by decide)
  exact h

/-! ## The Set registry: claims C2, C3, C4, C5, C10 -/

/-- C10: when an identity has been registered as a Gauge, by `GetOrCreateGauge`
or by `NewGauge`, then after any further calls `GetOrCreateCounter` on that
identity does not return a Counter: it panics on the type assertion and leaves
the state as it found it. Symmetrically `GetOrCreateGauge` panics on an
identity registered as a Counter by `GetOrCreateCounter` or `NewCounter`. -/
theorem getOrCreate_type_mismatch (d : Deps) (w0 : World) (family : String)
    (tags : List String) (fn : Bool) (cs : List Call) :
    (∀ g w1, (GetOrCreateGauge d w0 family tags = .returned g w1 ∨
        NewGauge d w0 family fn tags = .returned g w1) →
      GetOrCreateCounter d (runCalls d w1 cs) family tags =
        .panicked .typeAssertion (runCalls d w1 cs)) ∧
    (∀ c w1, (GetOrCreateCounter d w0 family tags = .returned c w1 ∨
        NewCounter d w0 family tags = .returned c w1) →
      GetOrCreateGauge d (runCalls d w1 cs) family tags =
        .panicked .typeAssertion (runCalls d w1 cs)) := by
  constructor
  · intro g w1 h
    have hreg : ∃ nm, w1.set.metrics.lookup (getHashStrings d family tags) = some nm ∧
        nm.metric = .gauge g := by
      rcases h with h | h
      · exact GetOrCreateGauge_returned d w0 w1 family tags g h
      · obtain ⟨ts, nm, h1, h2, h3, h4⟩ := NewGauge_returned d w0 w1 family fn tags g h
        rw [getHashTags_eq_getHashStrings d family family tags ts h1 h2] at h3
        exact ⟨nm, h3, h4⟩
    obtain ⟨nm, hl, hm⟩ := hreg
    rw [GetOrCreateCounter_found d _ family tags nm (runCalls_lookup_mono d cs w1 _ nm hl)]
    simp [assertCounter, hm]
  · intro c w1 h
    have hreg : ∃ nm, w1.set.metrics.lookup (getHashStrings d family tags) = some nm ∧
        nm.metric = .counter c := by
      rcases h with h | h
      · exact GetOrCreateCounter_returned d w0 w1 family tags c h
      · obtain ⟨ts, nm, h1, h2, h3, h4⟩ := NewCounter_returned d w0 w1 family tags c h
        rw [getHashTags_eq_getHashStrings d family family tags ts h1 h2] at h3
        exact ⟨nm, h3, h4⟩
    obtain ⟨nm, hl, hm⟩ := hreg
    rw [GetOrCreateGauge_found d _ family tags nm (runCalls_lookup_mono d cs w1 _ nm hl)]
    simp [assertGauge, hm]

/-- Witness for C10: `GetOrCreateGauge("foo")` on a fresh Set, then
`GetOrCreateCounter("foo")` panics. -/
theorem getOrCreate_type_mismatch_witness :
    GetOrCreateGauge sampleDeps (freshWorld emptyHeap) "foo" [] =
      .returned 0 worldWithGaugeFoo ∧
    GetOrCreateCounter sampleDeps worldWithGaugeFoo "foo" [] =
      .panicked .typeAssertion worldWithGaugeFoo :=
  ⟨by decide,
    (getOrCreate_type_mismatch sampleDeps (freshWorld emptyHeap) "foo" [] false []).1 0
      worldWithGaugeFoo (Or.inl (by decide))⟩

/-- C3: when `NewCounter(family, tags...)` has succeeded on a Set, then after
any further calls a second `NewCounter(family, tags...)` on that Set panics
with the duplicate-registration condition and leaves the Set's entries as they
were; the same call on a fresh Set succeeds. -/
theorem NewCounter_duplicate (d : Deps) (w w1 : World) (family : String)
    (tags : List String) (c : Nat) (cs : List Call)
    (hfirst : NewCounter d w family tags = .returned c w1) :
    (∃ hp, NewCounter d (runCalls d w1 cs) family tags =
      .panicked .duplicateRegistration { heap := hp, set := (runCalls d w1 cs).set }) ∧
    (∀ hp, ∃ c1 w2, NewCounter d (freshWorld hp) family tags = .returned c1 w2) := by
  obtain ⟨ts, nm, h1, h2, h3, _⟩ := NewCounter_returned d w w1 family tags c hfirst
  constructor
  · have hl := runCalls_lookup_mono d cs w1 _ nm h3
    refine ⟨(runCalls d w1 cs).heap.newCounter.1, ?_⟩
    simp only [NewCounter, h1, h2, NewCounterOpt, Set.mustRegisterMetric, hl]
  · intro hp
    refine ⟨hp.counters.length,
      { heap := hp.newCounter.1,
        set := { metrics := [(getHashTags d family ts,
          { id := getHashTags d family ts, family := family, tags := ts,
            metric := .counter hp.counters.length })] } }, ?_⟩
    simp only [NewCounter, h1, h2, NewCounterOpt, Set.mustRegisterMetric, freshWorld, NewSet,
      List.lookup_nil, Heap.newCounter]

/-- Witness for C3: `TestCounterNew`, with tags. -/
theorem NewCounter_duplicate_witness :
    NewCounter sampleDeps (freshWorld emptyHeap) "foo" ["bar", "baz"] =
      .returned 0 worldWithCounterFoo ∧
    (∃ hp, NewCounter sampleDeps
        (runCalls sampleDeps worldWithCounterFoo [.getOrCreateCounter "x" []])
        "foo" ["bar", "baz"] =
      .panicked .duplicateRegistration
        { heap := hp,
          set := (runCalls sampleDeps worldWithCounterFoo
            [.getOrCreateCounter "x" []]).set }) ∧
    (∀ hp, ∃ c1 w2, NewCounter sampleDeps (freshWorld hp) "foo" ["bar", "baz"] =
      .returned c1 w2) :=
  ⟨by decide,
    NewCounter_duplicate sampleDeps (freshWorld emptyHeap) worldWithCounterFoo "foo"
      ["bar", "baz"] 0 [.getOrCreateCounter "x" []] (by decide)⟩

/-- C4: for every Set and every valid family, `NewCounter(family, tags...)`
with a tag list of odd length panics with the malformed-tag-list condition and
leaves the state, so the Set, as it was; with a tag list of even length made of
valid labels and values, on a fresh Set, it returns a Counter and the Set then
holds that one entry. -/
theorem NewCounter_odd_tags (d : Deps) (w : World) (family : String) (tags : List String)
    (hfam : validIdent d family = true) :
    (tags.length % 2 = 1 →
      NewCounter d w family tags = .panicked .malformedTagList w) ∧
    (validFlatTags d tags = true → ∀ hp, ∃ c w1,
      NewCounter d (freshWorld hp) family tags = .returned c w1 ∧
      w1.set.metrics.length = 1) := by
  constructor
  · intro hodd
    simp [NewCounter, MustIdent_of_valid hfam, MustTags, hodd]
  · intro hv hp
    obtain ⟨ts, hts⟩ := MustTags_of_valid d tags hv
    refine ⟨hp.counters.length,
      { heap := hp.newCounter.1,
        set := { metrics := [(getHashTags d family ts,
          { id := getHashTags d family ts, family := family, tags := ts,
            metric := .counter hp.counters.length })] } }, ?_, ?_⟩
    · simp only [NewCounter, MustIdent_of_valid hfam, hts, NewCounterOpt,
        Set.mustRegisterMetric, freshWorld, NewSet, List.lookup_nil, Heap.newCounter]
    · rfl

/-- Witness for C4: `NewCounter("foo", "bar")` of `TestCounterNew`. -/
theorem NewCounter_odd_tags_witness :
    validIdent sampleDeps "foo" = true ∧ ["bar"].length % 2 = 1 ∧
    NewCounter sampleDeps (freshWorld emptyHeap) "foo" ["bar"] =
      .panicked .malformedTagList (freshWorld emptyHeap) :=
  ⟨by decide, by decide,
    (NewCounter_odd_tags sampleDeps (freshWorld emptyHeap) "foo" ["bar"] (by decide)).1
      (by decide)⟩

/-- C2: in every Set reached from a fresh Set by any sequence of calls, no
identity hash is the key of two entries and at most one entry carries a given
identity `(family, tags)`; once `GetOrCreateCounter(family, tags)` has
returned a Counter, every later `GetOrCreateCounter(family, tags)`, after any
further calls, returns the same Counter object and leaves the state, so the
Set's mapping, as it found it. In particular two `Inc` calls made through two
`GetOrCreateCounter("foo")` calls on a fresh Set leave `Get() == 2`. -/
theorem GetOrCreateCounter_same_object (d : Deps) (hp : Heap) (cs : List Call) :
    ((runCalls d (freshWorld hp) cs).set.metrics.map Prod.fst).Nodup ∧
    (∀ family tags,
      ((runCalls d (freshWorld hp) cs).set.entriesFor family tags).length ≤ 1) ∧
    (∀ family tags c w1,
      GetOrCreateCounter d (runCalls d (freshWorld hp) cs) family tags = .returned c w1 →
      ∀ cs2, GetOrCreateCounter d (runCalls d w1 cs2) family tags =
        .returned c (runCalls d w1 cs2)) ∧
    (validIdent d "foo" = true → ∃ c w1,
      GetOrCreateCounter d (freshWorld hp) "foo" [] = .returned c w1 ∧
      GetOrCreateCounter d { w1 with heap := Counter.apply w1.heap c .inc } "foo" [] =
        .returned c { w1 with heap := Counter.apply w1.heap c .inc } ∧
      Counter.Get (Counter.apply (Counter.apply w1.heap c .inc) c .inc) c = 2) := by
  have hwf := runCalls_wellFormed d cs (freshWorld hp) (freshWorld_wellFormed hp)
  refine ⟨hwf.1, fun family tags => ?_, fun family tags c w1 h cs2 => ?_, fun hv => ?_⟩
  · have hkeys := runCalls_keys d cs (freshWorld hp)
      (by intro e he; simp [freshWorld, NewSet] at he)
    refine filter_length_le_one _ (getHashTags d family tags) _ hwf.1 (fun e he hp1 => ?_)
    simp only [Bool.and_eq_true, beq_iff_eq] at hp1
    rw [hkeys e he, hp1.1, hp1.2]
  · obtain ⟨nm, hl, hm⟩ := GetOrCreateCounter_returned d _ w1 family tags c h
    rw [GetOrCreateCounter_found d _ family tags nm (runCalls_lookup_mono d cs2 w1 _ nm hl)]
    simp [assertCounter, hm]
  · have h1 : GetOrCreateCounter d (freshWorld hp) "foo" [] =
        .returned hp.counters.length
          { heap := { hp with counters := hp.counters ++ [0] },
            set := { metrics := [(getHashStrings d "foo" [],
              { id := getHashStrings d "foo" [], family := "foo", tags := [],
                metric := .counter hp.counters.length })] } } := by
      simp [GetOrCreateCounter, freshWorld, NewSet, Set.getOrAddMetricFromStrings,
        MustIdent_of_valid hv, MustTags, pairTags, Heap.newCounter, assertCounter]
    refine ⟨_, _, h1, ?_, ?_⟩
    · rw [GetOrCreateCounter_found d _ "foo" [] _ (lookup_cons_self _ _ _)]
      rfl
    · have hc : hp.counters.length < (hp.counters ++ [0]).length := by simp
      rw [Counter_Get_apply_self _ _ _ (by simp [Counter.apply]),
        Counter_Get_apply_self _ _ _ hc]
      simp [Counter.Get, List.getD_eq_getElem?_getD, CounterOp.apply]

/-- Witness for C2: after `WithLabelValues("1", "2")` on the Vec over family
`foo` with labels `a`, `b`, and `GetOrCreateCounter("foo", "a", "1", "b",
"2")`, both calls of the Counter interface, the Set holds one entry for the
identity `(foo, [a=1, b=2])` and both calls got the Counter at address 0. -/
theorem GetOrCreateCounter_same_object_witness :
    vecThenFlat.all Call.isCounterCall = true ∧
    ((runCalls sampleDeps (freshWorld emptyHeap) vecThenFlat).set.entriesFor "foo"
      [{ label := "a", value := "1" }, { label := "b", value := "2" }]).map
        (fun e => e.2.metric) = [.counter 0] ∧
    ((runCalls sampleDeps (freshWorld emptyHeap) vecThenFlat).set.entriesFor "foo"
      [{ label := "a", value := "1" }, { label := "b", value := "2" }]).length ≤ 1 :=
  ⟨by decide, by decide,
    (GetOrCreateCounter_same_object sampleDeps emptyHeap vecThenFlat).2.1 "foo"
      [{ label := "a", value := "1" }, { label := "b", value := "2" }]⟩

/-- C5 fails as stated. Under the sample collaborators the valid identities
`("fooa1", [])` and `("foo", ["a", "1"])` differ and feed the same bytes to the
hash: `GetOrCreateCounter` returns the same Counter object for both. And
whatever the 64-bit hash is, when every `a...a` is a valid family, two
different valid identities get the same Counter on a fresh Set. -/
theorem distinct_identities_share_counter :
    (validIdent sampleDeps "fooa1" = true ∧ validIdent sampleDeps "foo" = true ∧
      validFlatTags sampleDeps ["a", "1"] = true ∧
      GetOrCreateCounter sampleDeps (freshWorld emptyHeap) "fooa1" [] =
        .returned 0 worldWithFooa1 ∧
      GetOrCreateCounter sampleDeps worldWithFooa1 "foo" ["a", "1"] =
        .returned 0 worldWithFooa1) ∧
    ¬ ∃ d : Deps, (∀ n, validIdent d (aString n) = true) ∧
      ∀ (w : World) (f1 f2 : String) (t1 t2 : List String) (c1 c2 : Nat) (w1 w2 : World),
        validIdent d f1 = true → validFlatTags d t1 = true →
        validIdent d f2 = true → validFlatTags d t2 = true →
        (f1 ≠ f2 ∨ t1 ≠ t2) →
        GetOrCreateCounter d w f1 t1 = .returned c1 w1 →
        GetOrCreateCounter d w1 f2 t2 = .returned c2 w2 → c1 ≠ c2 := by
  refine ⟨by decide, ?_⟩
  rintro ⟨d, hval, hclaim⟩
  have hlt : ∀ n, getHashStrings d (aString n) [] < 2 ^ 64 := by
    intro n
    exact Nat.mod_lt _ (by norm_num)
  obtain ⟨n, m, hnm, heq⟩ := Finite.exists_ne_map_eq_of_infinite
    (fun n : Nat => (⟨getHashStrings d (aString n) [], hlt n⟩ : Fin (2 ^ 64)))
  have heq1 : getHashStrings d (aString n) [] = getHashStrings d (aString m) [] := by
    simpa using heq
  have hstr : aString n ≠ aString m := by
    intro h
    have h2 := congrArg String.length h
    simp [aString, String.length] at h2
    exact hnm h2
  have h1 : GetOrCreateCounter d (freshWorld emptyHeap) (aString n) [] =
      .returned 0
        { heap := { counters := [0], gauges := [] },
          set := { metrics := [(getHashStrings d (aString n) [],
            { id := getHashStrings d (aString n) [], family := aString n, tags := [],
              metric := .counter 0 })] } } := by
    simp [GetOrCreateCounter, freshWorld, NewSet, emptyHeap, Set.getOrAddMetricFromStrings,
      MustIdent_of_valid (hval n), MustTags, pairTags, Heap.newCounter, assertCounter]
  have h2 := GetOrCreateCounter_found d
    { heap := { counters := [0], gauges := [] },
      set := { metrics := [(getHashStrings d (aString n) [],
        { id := getHashStrings d (aString n) [], family := aString n, tags := [],
          metric := .counter 0 })] } } (aString m) []
    { id := getHashStrings d (aString n) [], family := aString n, tags := [],
      metric := .counter 0 } (by rw [← heq1]; exact lookup_cons_self _ _ _)
  exact hclaim _ (aString n) (aString m) [] [] 0 0 _ _ (hval n) rfl (hval m) rfl
    (Or.inl hstr) h1 h2 rfl

/-- On a fresh Set, when the hashes of `foo` and `foo{a="1"}` differ, the two
identities get two counters, and each reads 1 after one `Inc` apiece. -/
theorem foo_and_foo_a1 (d : Deps) (hp : Heap) (hfoo : validIdent d "foo" = true)
    (ha : validIdent d "a" = true) (h1 : d.validateValue "1" = true)
    (hne : getHashStrings d "foo" [] ≠ getHashStrings d "foo" ["a", "1"]) :
    ∃ ca cb wa wb,
      GetOrCreateCounter d (freshWorld hp) "foo" [] = .returned ca wa ∧
      GetOrCreateCounter d { wa with heap := Counter.apply wa.heap ca .inc } "foo"
        ["a", "1"] = .returned cb wb ∧
      Counter.Get (Counter.apply wb.heap cb .inc) ca = 1 ∧
      Counter.Get (Counter.apply wb.heap cb .inc) cb = 1 := by
  have hbeq : (getHashStrings d "foo" ["a", "1"] == getHashStrings d "foo" []) = false := by
    simpa using fun h => hne h.symm
  refine ⟨hp.counters.length, hp.counters.length + 1,
    { heap := { hp with counters := hp.counters ++ [0] },
      set := { metrics := [(getHashStrings d "foo" [],
        { id := getHashStrings d "foo" [], family := "foo", tags := [],
          metric := .counter hp.counters.length })] } },
    { heap := { hp with counters := (hp.counters ++ [0]).set hp.counters.length 1 ++ [0] },
      set := { metrics := [(getHashStrings d "foo" ["a", "1"],
        { id := getHashStrings d "foo" ["a", "1"], family := "foo",
          tags := [{ label := "a", value := "1" }],
          metric := .counter (hp.counters.length + 1) }),
        (getHashStrings d "foo" [],
        { id := getHashStrings d "foo" [], family := "foo", tags := [],
          metric := .counter hp.counters.length })] } }, ?_, ?_, ?_, ?_⟩
  · simp [GetOrCreateCounter, freshWorld, NewSet, Set.getOrAddMetricFromStrings,
      MustIdent_of_valid hfoo, MustTags, pairTags, Heap.newCounter, assertCounter]
  · simp [GetOrCreateCounter, Set.getOrAddMetricFromStrings, MustIdent_of_valid hfoo,
      MustIdent_of_valid ha, MustTags, pairTags, MustValue, h1, Heap.newCounter,
      assertCounter, List.lookup_cons, hbeq, Counter.apply, Counter.Get, CounterOp.apply,
      List.getD_eq_getElem?_getD]
  · rw [Counter_Get_apply_ne _ _ _ _ (by omega)]
    simp [Counter.Get, List.getD_eq_getElem?_getD, List.getElem_append_right]
  · rw [Counter_Get_apply_self _ _ _ (by simp)]
    simp [Counter.Get, List.getD_eq_getElem?_getD, CounterOp.apply,
      List.getElem_append_right]

/-- C5 (amended): in every Set reached from a fresh Set by any sequence of
calls, when `GetOrCreateCounter` returns for two identities whose identity
hashes differ, it returns two distinct Counter objects, and an operation on
one leaves `Get()` of the other unchanged; on a fresh Set, when the hashes of
`foo` and `foo{a="1"}` differ, `GetOrCreateCounter("foo")` and
`GetOrCreateCounter("foo", "a", "1")` each read 1 after one `Inc` apiece.
(Identities with the same hash share one Counter.) -/
theorem GetOrCreateCounter_distinct (d : Deps) (hp : Heap) (cs : List Call)
    (f1 f2 : String) (t1 t2 : List String) (c1 c2 : Nat) (w1 w2 : World)
    (h1 : GetOrCreateCounter d (runCalls d (freshWorld hp) cs) f1 t1 = .returned c1 w1)
    (h2 : GetOrCreateCounter d w1 f2 t2 = .returned c2 w2)
    (hne : getHashStrings d f1 t1 ≠ getHashStrings d f2 t2) :
    c1 ≠ c2 ∧
    (∀ heap op, Counter.Get (Counter.apply heap c1 op) c2 = Counter.Get heap c2) ∧
    (∀ heap op, Counter.Get (Counter.apply heap c2 op) c1 = Counter.Get heap c1) ∧
    (validIdent d "foo" = true → validIdent d "a" = true → d.validateValue "1" = true →
      getHashStrings d "foo" [] ≠ getHashStrings d "foo" ["a", "1"] →
      ∃ ca cb wa wb,
        GetOrCreateCounter d (freshWorld hp) "foo" [] = .returned ca wa ∧
        GetOrCreateCounter d { wa with heap := Counter.apply wa.heap ca .inc } "foo"
          ["a", "1"] = .returned cb wb ∧
        Counter.Get (Counter.apply wb.heap cb .inc) ca = 1 ∧
        Counter.Get (Counter.apply wb.heap cb .inc) cb = 1) := by
  have hwf := runCalls_wellFormed d cs (freshWorld hp) (freshWorld_wellFormed hp)
  have hwf1 : WellFormed w1 := by
    have := (GetOrCreateCounter_effect d _ f1 t1).wellFormed hwf
    rwa [h1] at this
  have hwf2 : WellFormed w2 := by
    have := (GetOrCreateCounter_effect d _ f2 t2).wellFormed hwf1
    rwa [h2] at this
  obtain ⟨nm1, hl1, hm1⟩ := GetOrCreateCounter_returned d _ w1 f1 t1 c1 h1
  obtain ⟨nm2, hl2, hm2⟩ := GetOrCreateCounter_returned d _ w2 f2 t2 c2 h2
  have hl1a : w2.set.metrics.lookup (getHashStrings d f1 t1) = some nm1 := by
    have := (GetOrCreateCounter_effect d w1 f2 t2).lookup_mono _ nm1 hl1
    rwa [h2] at this
  have hc : c1 ≠ c2 := by
    intro hc
    apply hne
    exact hwf2.2.2 _ _ nm1 nm2 hl1a hl2 (by rw [hm1, hm2, hc])
  exact ⟨hc, fun heap op => Counter_Get_apply_ne heap c1 c2 op hc,
    fun heap op => Counter_Get_apply_ne heap c2 c1 op (Ne.symm hc),
    foo_and_foo_a1 d hp⟩

/-- Witness for C5 (amended): `TestCounterGetOrCreate`: `foo` and
`foo{a="1"}` are two counters under the sample collaborators. -/
theorem GetOrCreateCounter_distinct_witness :
    GetOrCreateCounter sampleDeps (runCalls sampleDeps (freshWorld emptyHeap) []) "foo" [] =
      .returned 0 worldWithFoo ∧
    GetOrCreateCounter sampleDeps worldWithFoo "foo" ["a", "1"] =
      .returned 1 worldWithFooA1 ∧
    getHashStrings sampleDeps "foo" [] ≠ getHashStrings sampleDeps "foo" ["a", "1"] ∧
    0 ≠ 1 ∧
    (∀ heap op, Counter.Get (Counter.apply heap 0 op) 1 = Counter.Get heap 1) ∧
    (∀ heap op, Counter.Get (Counter.apply heap 1 op) 0 = Counter.Get heap 0) :=
  ⟨by decide, by decide, by decide,
    (GetOrCreateCounter_distinct sampleDeps emptyHeap [] "foo" "foo" [] ["a", "1"] 0 1
      worldWithFoo worldWithFooA1 (by decide) (by decide) (by decide)).1,
    (GetOrCreateCounter_distinct sampleDeps emptyHeap [] "foo" "foo" [] ["a", "1"] 0 1
      worldWithFoo worldWithFooA1 (by decide) (by decide) (by decide)).2.1,
    (GetOrCreateCounter_distinct sampleDeps emptyHeap [] "foo" "foo" [] ["a", "1"] 0 1
      worldWithFoo worldWithFooA1 (by decide) (by decide) (by decide)).2.2.1⟩

end Vmmetrics
